import Mathlib

/-!
# Verification of the offer-allocation engine (`src/optimizacion/modelo.py`)

This file gives a shallow embedding of the demand-constrained offer
allocation engine of the repository and proves/refutes the frozen claims
about it.

The embedding covers:

* `construir_modelo` (modelo.py, lines 15-269): construction of the model
  data (sorted unique index sets, demand dictionary, valid-quote
  dictionaries, the big-M constant and the priority ranking by average
  indexed price).
* `extraer_resultados` (modelo.py, lines 271-689): the deterministic
  multi-round greedy allocator, including its per-round assignment and
  leftover-capacity tables, the `DEMANDA_FALTANTE` table and the early
  `return {}` when no valid offer exists.
* the division-guarded coverage / weighted-average-price computations
  (evaluacion.py line 124, modelo.py lines 605-607).

Python floats are modelled as exact rationals (`ℚ`); the code's own
tolerance `1e-6` appears as `Eps`.  Python's stable `list.sort` is
modelled by `List.insertionSort` with a non-strict comparator, which is
stable in exactly the same sense.  The unbounded `while True:` loop is
modelled with explicit fuel (`iterar`); we prove that fuel 2 always
suffices, so any fuel bound of at least 2 — in particular the spec's
`#offers + 1` — yields the loop's actual result.
-/

namespace AsignacionPyomo

/-- The numerical tolerance `1e-6` used by all zero-comparisons in
`extraer_resultados` (modelo.py lines 335, 341, 376, 453, 457, 496). -/
def Eps : ℚ := 1 / 1000000

/-- One valid offer quote: an entry of `precio_dict` / `cantidad_dict`
(modelo.py lines 57-72): unit price (`PRECIO INDEXADO`) and quantity
(`CANTIDAD`) for one (offer, date, hour). -/
structure Quote where
  precio : ℚ
  cantidad : ℚ
deriving DecidableEq

/-- The data of the built Pyomo model that `extraer_resultados` reads:
the index lists `model.I`, `model.A`, `model.H`, the demand parameter
`model.D`, and the valid-combination set `model.OFH` together with the
parameters `model.PO` / `model.CO`, bundled as `quote` (membership in
`OFH` is `(quote o f h).isSome`).  `EA`, `Y` and `ENA` are the
solver-determined values of the decision variables; they are carried
here to make precise that `extraer_resultados` never reads them. -/
structure ModelData where
  ofertas : List String
  fechas : List Nat
  horas : List Nat
  D : Nat → Nat → ℚ
  quote : String → Nat → Nat → Option Quote
  EA : String → Nat → Nat → ℚ
  Y : String → Nat → Nat → Bool
  ENA : Nat → Nat → ℚ

/-- `model.CO` extended by 0 outside `model.OFH` (the quantity a quote
offers; absence of a quote means capacity 0). -/
def CO (md : ModelData) (o : String) (f h : Nat) : ℚ :=
  ((md.quote o f h).map Quote.cantidad).getD 0

/-- The price used when gathering candidates (modelo.py lines 383-401):
`model.PO` when `(o,f,h) ∈ model.OFH`, and `float('inf')` — modelled as
`none` — otherwise. -/
def PO (md : ModelData) (o : String) (f h : Nat) : Option ℚ :=
  (md.quote o f h).map Quote.precio

/-- The offers that have at least one valid combination in `model.OFH`
(modelo.py lines 289-293). -/
def ofertasValidas (md : ModelData) : List String :=
  md.ofertas.filter fun o =>
    md.fechas.any fun f => md.horas.any fun h => (md.quote o f h).isSome

/-- The (date, hour) pairs visited by the nested
`for fecha in todas_fechas: for hora in todas_horas:` loops
(modelo.py lines 371-373). -/
def slots (md : ModelData) : List (Nat × Nat) :=
  md.fechas.product md.horas

/-- The initial `demanda_restante` dictionary (modelo.py lines 313-316):
keys are exactly the model's (fecha, hora) pairs, with value `model.D`;
a lookup outside the key set (`dict.get(..., 0)`) yields 0. -/
def restanteInicial (md : ModelData) : Nat → Nat → ℚ :=
  fun f h => if f ∈ md.fechas ∧ h ∈ md.horas then md.D f h else 0

/-- `sum(demanda_restante.values())` (modelo.py lines 320, 334). -/
def totalRestante (md : ModelData) (r : Nat → Nat → ℚ) : ℚ :=
  ((slots md).map fun fh => r fh.1 fh.2).sum

/-- One `Allocation` record: a single positive assignment written into
the `DEMANDA ASIGNADA <oferta> IT<it>_COMPRAR` table at
(fecha, hora) during round `it` (modelo.py lines 420-432). -/
structure Asig where
  oferta : String
  fecha : Nat
  hora : Nat
  it : Nat
  cantidad : ℚ
deriving DecidableEq

/-- Pointwise update of a (fecha, hora)-indexed map. -/
def updSlot (g : Nat → Nat → ℚ) (f h : Nat) (v : ℚ) : Nat → Nat → ℚ :=
  fun f' h' => if f' = f ∧ h' = h then v else g f' h'

/-- Pointwise update of an (oferta, fecha, hora)-indexed table. -/
def updCap (g : String → Nat → Nat → ℚ) (o : String) (f h : Nat) (v : ℚ) :
    String → Nat → Nat → ℚ :=
  fun o' f' h' => if o' = o ∧ f' = f ∧ h' = h then v else g o' f' h'

/-- Working state while one round (iteration) of the allocator runs:
the `demanda_restante` dictionary, the current round's
`capacidad_no_usada` tables (initialised to 0.0, modelo.py lines
352-365), the `Allocation` records written so far in this round, and
`asignacion_total_iteracion`. -/
structure WalkSt where
  restante : Nat → Nat → ℚ
  noUsada : String → Nat → Nat → ℚ
  asigs : List Asig
  total : ℚ

/-- One candidate `(oferta, precio, capacidad)` gathered for a slot
(modelo.py lines 380-405); `precio = none` models `float('inf')`. -/
structure Cand where
  oferta : String
  precio : Option ℚ
  capacidad : ℚ
deriving DecidableEq

/-- The capacity available to an offer at a slot in round `it`
(modelo.py lines 386-397): the model's `CO` in the first iteration, the
previous iteration's unused-capacity table afterwards. -/
def capacidadDisponible (md : ModelData) (it : Nat)
    (prev : String → Nat → Nat → ℚ) (o : String) (f h : Nat) : ℚ :=
  if it = 1 then CO md o f h else prev o f h

/-- `ofertas_disponibles`: the candidates with positive capacity for a
slot, in the order of `ofertas_validas` (modelo.py lines 380-405). -/
def recolectar (md : ModelData) (it : Nat)
    (prev : String → Nat → Nat → ℚ) (f h : Nat) : List Cand :=
  ((ofertasValidas md).filter fun o =>
      decide (0 < capacidadDisponible md it prev o f h)).map fun o =>
    ⟨o, PO md o f h, capacidadDisponible md it prev o f h⟩

/-- Comparison of candidate prices, `none` playing the role of
`float('inf')`. -/
def precioLe : Option ℚ → Option ℚ → Prop
  | _, none => True
  | none, some _ => False
  | some x, some y => x ≤ y

instance : DecidableRel precioLe := fun a b =>
  match a, b with
  | none, none => isTrue trivial
  | some _, none => isTrue trivial
  | none, some _ => isFalse fun hx => hx
  | some x, some y => inferInstanceAs (Decidable (x ≤ y))

/-- `ofertas_disponibles.sort(key=lambda x: x[1])` (modelo.py line 408):
Python's sort is stable; `List.insertionSort` with the non-strict
comparator places each element before the equal-priced elements that
followed it, which is the same stable order. -/
def ordenar (l : List Cand) : List Cand :=
  l.insertionSort fun a b => precioLe a.precio b.precio

/-- The walk over the price-sorted candidates of one slot (modelo.py
lines 417-454): assign `min(demanda, capacidad)`, update the remaining
demand, the assignment table and the unused-capacity table, and stop
as soon as `demanda <= 1e-6`. -/
def asignarOfertas (it f h : Nat) : List Cand → ℚ → WalkSt → WalkSt
  | [], _, st => st
  | c :: rest, demanda, st =>
    let e := min demanda c.capacidad
    if 0 < e then
      let demanda' := demanda - e
      let st' : WalkSt :=
        { restante := updSlot st.restante f h (st.restante f h - e)
          noUsada := updCap st.noUsada c.oferta f h (c.capacidad - e)
          asigs := st.asigs ++ [⟨c.oferta, f, h, it, e⟩]
          total := st.total + e }
      if demanda' ≤ Eps then st' else asignarOfertas it f h rest demanda' st'
    else
      if demanda ≤ Eps then st else asignarOfertas it f h rest demanda st

/-- Processing of one slot in one round (modelo.py lines 373-454):
skip it if its remaining demand is `<= 1e-6`, otherwise walk the
price-sorted candidates. -/
def procesarSlot (md : ModelData) (it : Nat)
    (prev : String → Nat → Nat → ℚ) (st : WalkSt) (fh : Nat × Nat) : WalkSt :=
  let demanda := st.restante fh.1 fh.2
  if demanda ≤ Eps then st
  else asignarOfertas it fh.1 fh.2 (ordenar (recolectar md it prev fh.1 fh.2)) demanda st

/-- One full round (iteration) of the allocator: fresh all-zero
assignment and unused-capacity tables (modelo.py lines 352-365), then
every slot in date-then-hour order. -/
def procesarRonda (md : ModelData) (it : Nat)
    (prev : String → Nat → Nat → ℚ) (r0 : Nat → Nat → ℚ) : WalkSt :=
  (slots md).foldl (procesarSlot md it prev)
    { restante := r0, noUsada := fun _ _ _ => 0, asigs := [], total := 0 }

/-- The audit record of one executed round: its iteration number, its
`capacidad_no_usada` tables, its `Allocation` records and its
`asignacion_total_iteracion`. -/
structure Ronda where
  it : Nat
  noUsada : String → Nat → Nat → ℚ
  asigs : List Asig
  total : ℚ

/-- State of the `while True:` loop of `extraer_resultados`
(modelo.py lines 318-482). -/
structure LoopSt where
  restante : Nat → Nat → ℚ
  prevNoUsada : String → Nat → Nat → ℚ
  asigs : List Asig
  rondas : List Ronda
  it : Nat
  demandaAnterior : ℚ

/-- Fold one executed round into the loop state: the round's
unused-capacity tables become the capacity source for the next round,
its records are appended, `iteracion_actual` advances and
`demanda_anterior` is the total demand measured before the round
(modelo.py lines 347, 461-482). -/
def siguiente (st : LoopSt) (w : WalkSt) (tot : ℚ) : LoopSt :=
  { restante := w.restante
    prevNoUsada := w.noUsada
    asigs := st.asigs ++ w.asigs
    rondas := st.rondas ++ [⟨st.it, w.noUsada, w.asigs, w.total⟩]
    it := st.it + 1
    demandaAnterior := tot }

/-- The `while True:` loop of `extraer_resultados` (modelo.py lines
329-482), with explicit fuel standing in for the unbounded loop
(`iterar_fuel_suficiente` below shows any fuel ≥ 2 returns the loop's
actual result, so no behaviour is lost).  The three `break`s are the
no-remaining-demand check (line 335), the no-change check (line 341)
and the nothing-assigned check (line 457). -/
def iterar (md : ModelData) : Nat → LoopSt → Option LoopSt
  | 0, _ => none
  | n + 1, st =>
    let tot := totalRestante md st.restante
    if tot < Eps then some st
    else if 1 < st.it ∧ |st.demandaAnterior - tot| < Eps then some st
    else
      let w := procesarRonda md st.it st.prevNoUsada st.restante
      if w.total < Eps then some (siguiente st w tot)
      else iterar md n (siguiente st w tot)

/-- The loop state on entry (modelo.py lines 313-326). -/
def estadoInicial (md : ModelData) : LoopSt :=
  { restante := restanteInicial md
    prevNoUsada := fun _ _ _ => 0
    asigs := []
    rondas := []
    it := 1
    demandaAnterior := totalRestante md (restanteInicial md) }

/-- The rounding applied to each `DEMANDA_FALTANTE` cell
(modelo.py lines 493-497): values with `abs(...) < 1e-6` become 0. -/
def redondear (v : ℚ) : ℚ := if |v| < Eps then 0 else v

/-- The results of `extraer_resultados` that the claims are about: the
per-round audit records, all `Allocation` records, and the
`DEMANDA_FALTANTE` table (whose rows are the model's dates and whose
columns are the hours 1..24; `faltante` is its cell value). -/
structure Resultados where
  rondas : List Ronda
  asigs : List Asig
  faltante : Nat → Nat → ℚ

/-- `extraer_resultados` (modelo.py lines 271-689).  When no offer has a
valid combination the function warns and returns the empty dict `{}`
(lines 298-300), modelled as `none`.  Otherwise the iterative allocation
loop runs — fuel `#valid offers + 1` is the spec's round bound and is
proven sufficient below — and the `DEMANDA_FALTANTE` table is built from
the final remaining demand (lines 484-504). -/
def extraer_resultados (md : ModelData) : Option Resultados :=
  if ofertasValidas md = [] then none
  else
    (iterar md ((ofertasValidas md).length + 1) (estadoInicial md)).map fun st =>
      { rondas := st.rondas
        asigs := st.asigs
        faltante := fun f h => redondear (st.restante f h) }

/-- Total quantity assigned at a slot by a list of allocation records. -/
def asignadoEnSlot (l : List Asig) (f h : Nat) : ℚ :=
  ((l.filter fun a => decide (a.fecha = f ∧ a.hora = h)).map Asig.cantidad).sum

/-- Total quantity assigned to one offer at one slot by a list of
allocation records. -/
def asignadoOferta (l : List Asig) (o : String) (f h : Nat) : ℚ :=
  ((l.filter fun a => decide (a.oferta = o ∧ a.fecha = f ∧ a.hora = h)).map
    Asig.cantidad).sum

/-- The capacity available to the allocator at (1-indexed) round `j + 1`,
as read by the code: the model's `CO` for the first round, and the
previous round's unused-capacity table afterwards (modelo.py lines
386-397). -/
def capEntrada (md : ModelData) (rondas : List Ronda) (j : Nat)
    (o : String) (f h : Nat) : ℚ :=
  match j with
  | 0 => CO md o f h
  | j' + 1 => (rondas[j']?.map fun rd => rd.noUsada o f h).getD 0

/-! ## The raw input level: `construir_modelo` -/

/-- One row of the offers DataFrame, with the columns read by
`construir_modelo` (`CÓDIGO OFERTA`, `FECHA`, `Atributo`,
`PRECIO INDEXADO`, `CANTIDAD`, `EVALUACIÓN`); `none` models a
missing (NaN) cell. -/
structure OfertaRow where
  codigo : String
  fecha : Nat
  atributo : Nat
  precioIndexado : Option ℚ
  cantidad : Option ℚ
  evaluacion : Nat

/-- One row of the demand DataFrame (`FECHA`, `HORA`, `DEMANDA`). -/
structure DemandaRow where
  fecha : Nat
  hora : Nat
  demanda : ℚ

/-- Python's lexicographic string comparison, on code points. -/
def lexMenor : List Char → List Char → Bool
  | [], [] => false
  | [], _ :: _ => true
  | _ :: _, [] => false
  | a :: as, b :: bs =>
    if a.toNat < b.toNat then true
    else if b.toNat < a.toNat then false
    else lexMenor as bs

/-- `a < b` for offer codes, as Python compares strings. -/
def strMenor (a b : String) : Bool := lexMenor a.data b.data

/-- `sorted(set(xs))` for strings (modelo.py line 40): the distinct
elements in ascending lexicographic order. -/
def ordenarCodigos (l : List String) : List String :=
  l.dedup.insertionSort fun a b => strMenor b a = false

/-- `sorted(xs.unique())` for naturals (modelo.py lines 41-42). -/
def ordenarNats (l : List Nat) : List Nat :=
  l.dedup.insertionSort fun a b => a ≤ b

/-- A row is a valid quote iff `EVALUACIÓN == 1`, both `PRECIO INDEXADO`
and `CANTIDAD` are present, and `CANTIDAD > 0` (modelo.py lines 55-72). -/
def filaValida (r : OfertaRow) : Prop :=
  r.evaluacion = 1 ∧ r.precioIndexado.isSome ∧ 0 < r.cantidad.getD 0

instance : DecidablePred filaValida := fun _ =>
  inferInstanceAs (Decidable (_ ∧ _ ∧ _))

/-- `construir_modelo` (modelo.py lines 15-269), restricted to the data
`extraer_resultados` reads: sorted unique index lists, the demand
dictionary (later rows overwrite earlier ones, hence `getLast?`), and
the valid-quote dictionaries.  The decision variables are created unset
by Pyomo; their values are irrelevant to `extraer_resultados` (claim
C10) and are carried as zeros. -/
def construir_modelo (odf : List OfertaRow) (ddf : List DemandaRow) : ModelData :=
  { ofertas := ordenarCodigos (odf.map OfertaRow.codigo)
    fechas := ordenarNats (ddf.map DemandaRow.fecha)
    horas := ordenarNats (ddf.map DemandaRow.hora)
    D := fun f h =>
      (((ddf.filter fun r => decide (r.fecha = f ∧ r.hora = h)).getLast?).map
        DemandaRow.demanda).getD 0
    quote := fun o f h =>
      ((odf.filter fun r =>
          decide (filaValida r ∧ r.codigo = o ∧ r.fecha = f ∧ r.atributo = h)).getLast?).map
        fun r => ⟨r.precioIndexado.getD 0, r.cantidad.getD 0⟩
    EA := fun _ _ _ => 0
    Y := fun _ _ _ => false
    ENA := fun _ _ => 0 }

/-- `model.M`, the big-M deficit penalty: the fixed constant `1e10`
(modelo.py line 116). -/
def bigM : ℚ := 10000000000

/-- All valid quote prices of a model snapshot. -/
def listaPrecios (md : ModelData) : List ℚ :=
  md.ofertas.flatMap fun o =>
    (slots md).filterMap fun fh => ((md.quote o fh.1 fh.2).map Quote.precio)

/-- `max(price)` over a snapshot (0 when there is no quote at all). -/
def maxPrecio (md : ModelData) : ℚ := (listaPrecios md).foldr max 0

/-- The total demand of the snapshot (modelo.py line 627). -/
def demandaTotal (md : ModelData) : ℚ :=
  ((slots md).map fun fh => md.D fh.1 fh.2).sum

/-- The average `PRECIO INDEXADO` of an offer's `EVALUACIÓN == 1` rows
(modelo.py lines 122-136): pandas' `.mean()` skips missing cells; with
no value at all the code assigns `float('inf')`, modelled as `none`. -/
def precioPromedioOferta (odf : List OfertaRow) (o : String) : Option ℚ :=
  let ps := (odf.filter fun r =>
      decide (r.codigo = o ∧ r.evaluacion = 1 ∧ r.precioIndexado.isSome)).map
    fun r => r.precioIndexado.getD 0
  if ps = [] then none else some (ps.sum / ps.length)

/-- `model.prioridad` (modelo.py lines 118-156): the offers are sorted
by average price ascending — Python's `sorted` is stable, ties keep the
(lexicographically sorted) dictionary insertion order — and the
1-based position in that order is the offer's priority. -/
def prioridadOferta (odf : List OfertaRow) (o : String) : Nat :=
  (((ordenarCodigos (odf.map OfertaRow.codigo)).insertionSort fun a b =>
      precioLe (precioPromedioOferta odf a) (precioPromedioOferta odf b)).indexOf o) + 1

/-- `COBERTURA (%)` (evaluacion.py line 124): assigned / demand × 100,
with the zero-demand guard. -/
def cobertura (totalCantidad demanda : ℚ) : ℚ :=
  if 0 < demanda then totalCantidad / demanda * 100 else 0

/-- The quantity-weighted average price (modelo.py lines 605-607):
total cost / total energy, with the zero-energy guard. -/
def promedioPonderado (totalCosto totalEnergia : ℚ) : ℚ :=
  if 0 < totalEnergia then totalCosto / totalEnergia else 0

/-- The fully deterministic candidate order the claims discuss: price
strictly ascending, with price ties broken by the lexicographic order
of the offer codes. -/
def candLex (c c' : Cand) : Prop :=
  (precioLe c'.precio c.precio → False) ∨
    (c.precio = c'.precio ∧ strMenor c.oferta c'.oferta = true)

/-! ## Concrete instances used by witnesses and counterexamples -/

/-- A small concrete snapshot (Scenario A of the spec): one slot (1,1)
with demand 100; offer "A" quotes price 10 / capacity 60 and offer "B"
price 12 / capacity 60. -/
def mdA : ModelData :=
  { ofertas := ["A", "B"]
    fechas := [1]
    horas := [1]
    D := fun f h => if f = 1 ∧ h = 1 then 100 else 0
    quote := fun o f h =>
      if o = "A" ∧ f = 1 ∧ h = 1 then some ⟨10, 60⟩
      else if o = "B" ∧ f = 1 ∧ h = 1 then some ⟨12, 60⟩
      else none
    EA := fun _ _ _ => 0
    Y := fun _ _ _ => false
    ENA := fun _ _ => 0 }

/-- Like `mdA` but with demand 50: round 1 satisfies the slot from "A"
alone, so "B" is never touched and its capacity is reset to 0 for
round 2 instead of being carried as 60. -/
def mdC3 : ModelData :=
  { mdA with D := fun f h => if f = 1 ∧ h = 1 then 50 else 0 }

/-- A snapshot with max price 10^9 and total demand 10, so that
max(price) × total_demand × 10 = 10^11 exceeds the fixed BIG_M = 1e10. -/
def mdC7 : ModelData :=
  { ofertas := ["Z"]
    fechas := [1]
    horas := [1]
    D := fun f h => if f = 1 ∧ h = 1 then 10 else 0
    quote := fun o f h =>
      if o = "Z" ∧ f = 1 ∧ h = 1 then some ⟨1000000000, 5⟩ else none
    EA := fun _ _ _ => 0
    Y := fun _ _ _ => false
    ENA := fun _ _ => 0 }

/-- A snapshot with positive demand but no valid quote at all:
`extraer_resultados` takes the `return {}` path of modelo.py line 300. -/
def mdC8 : ModelData :=
  { ofertas := ["Z"]
    fechas := [1]
    horas := [1]
    D := fun f h => if f = 1 ∧ h = 1 then 10 else 0
    quote := fun _ _ _ => none
    EA := fun _ _ _ => 0
    Y := fun _ _ _ => false
    ENA := fun _ _ => 0 }

/-- One slot (1,1) with demand 7 and one quote; demand values outside
the slot set, quotes outside the index lists and the solver-variable
values are all irrelevant to `extraer_resultados`. -/
def mdC6a : ModelData :=
  { ofertas := ["A"]
    fechas := [1]
    horas := [1]
    D := fun f h => if f = 1 ∧ h = 1 then 7 else 3
    quote := fun o f h => if o = "A" ∧ f = 1 ∧ h = 1 then some ⟨5, 4⟩ else none
    EA := fun _ _ _ => 0
    Y := fun _ _ _ => false
    ENA := fun _ _ => 0 }

/-- Same engine-relevant data as `mdC6a`, different everywhere else. -/
def mdC6b : ModelData :=
  { ofertas := ["A"]
    fechas := [1]
    horas := [1]
    D := fun f h => if f = 1 ∧ h = 1 then 7 else 99
    quote := fun o f h =>
      if o = "A" ∧ f = 1 ∧ h = 1 then some ⟨5, 4⟩
      else if f = 2 then some ⟨9, 9⟩ else none
    EA := fun _ _ _ => 123
    Y := fun _ _ _ => true
    ENA := fun _ _ => 55 }

/-- Offer rows for the C2 counterexample: "A" and "B" tie at price 8 on
slot (1,1); their hour-2 quotes make "B" far cheaper on average, so
`model.prioridad` ranks "B" first ("B" ↦ 1, "A" ↦ 2). -/
def rowsC2 : List OfertaRow :=
  [⟨"A", 1, 1, some 8, some 25, 1⟩,
   ⟨"A", 1, 2, some 100, some 5, 1⟩,
   ⟨"B", 1, 1, some 8, some 25, 1⟩,
   ⟨"B", 1, 2, some 1, some 5, 1⟩]

/-- Demand rows for the C2 counterexample: 30 kWh at hour 1, none at
hour 2. -/
def ddfC2 : List DemandaRow := [⟨1, 1, 30⟩, ⟨1, 2, 0⟩]

/-- Scenario D rows: one slot, two offers at equal price 8 with
capacity 25 each; "A" gets priority 1 and "B" priority 2. -/
def rowsD : List OfertaRow :=
  [⟨"A", 1, 1, some 8, some 25, 1⟩, ⟨"B", 1, 1, some 8, some 25, 1⟩]

/-- Scenario D demand: 40 kWh at slot (1,1). -/
def ddfD : List DemandaRow := [⟨1, 1, 40⟩]

/-- Fallback value for reading the result of a successful run. -/
def resVacio : Resultados := ⟨[], [], fun _ _ => 0⟩

/-- The results of the run on `mdA` (`extraer_resultados mdA` is proved
below to return exactly this). -/
def resA : Resultados := (extraer_resultados mdA).getD resVacio

/-- The results of the run on `mdC3`. -/
def resC3 : Resultados := (extraer_resultados mdC3).getD resVacio

/-- The round-1 audit record of the run on `mdC3`. -/
def rdC3 : Ronda := resC3.rondas.headD ⟨0, fun _ _ _ => 0, [], 0⟩

/-- The model built from the C2 counterexample rows. -/
def mdC2 : ModelData := construir_modelo rowsC2 ddfC2

/-- The results of the run on `mdC2`. -/
def resC2 : Resultados := (extraer_resultados mdC2).getD resVacio

/-- The model built from the Scenario D rows. -/
def mdD : ModelData := construir_modelo rowsD ddfD

/-- The results of the run on `mdD`. -/
def resD : Resultados := (extraer_resultados mdD).getD resVacio

/-! ## Specification predicates used by the proofs -/

/-- What one execution of the candidate walk of a slot (modelo.py lines
417-454) does to the working state, described relative to the entry
state `st` by the list `new` of allocation records it appends. -/
structure WalkOut (it f h : Nat) (capF : String → ℚ) (cands : List Cand)
    (new : List Asig) (st w : WalkSt) : Prop where
  asigs_eq : w.asigs = st.asigs ++ new
  new_mem : ∀ a ∈ new, a.it = it ∧ a.fecha = f ∧ a.hora = h ∧ 0 < a.cantidad ∧
    a.oferta ∈ cands.map Cand.oferta
  restante_frame : ∀ f' h', ¬(f' = f ∧ h' = h) → w.restante f' h' = st.restante f' h'
  restante_eq : w.restante f h = st.restante f h - (new.map Asig.cantidad).sum
  restante_nonneg : 0 ≤ st.restante f h → 0 ≤ w.restante f h
  noUsada_frame : ∀ o f' h', ¬(f' = f ∧ h' = h) → w.noUsada o f' h' = st.noUsada o f' h'
  porOferta : List.Pairwise (fun c c' => c.oferta ≠ c'.oferta) cands →
    ∀ o, (asignadoOferta new o f h = 0 ∧ w.noUsada o f h = st.noUsada o f h) ∨
      (0 < asignadoOferta new o f h ∧ asignadoOferta new o f h ≤ capF o ∧
        w.noUsada o f h = capF o - asignadoOferta new o f h)
  eInv : ∀ o, 0 < w.noUsada o f h → 0 < st.noUsada o f h ∨ w.restante f h ≤ Eps
  total_eq : w.total = st.total + (new.map Asig.cantidad).sum

/-- Effect of processing the slots of `l` within one round
(modelo.py lines 371-454), relative to the entry state `st`. -/
structure RondaOut (md : ModelData) (it : Nat) (prev : String → Nat → Nat → ℚ)
    (l : List (Nat × Nat)) (new : List Asig) (st w : WalkSt) : Prop where
  asigs_eq : w.asigs = st.asigs ++ new
  new_mem : ∀ a ∈ new, a.it = it ∧ (a.fecha, a.hora) ∈ l ∧ 0 < a.cantidad
  restante_eq : ∀ f h, w.restante f h = st.restante f h - asignadoEnSlot new f h
  restante_nonneg : ∀ f h, 0 ≤ st.restante f h → 0 ≤ w.restante f h
  noUsada_frame : ∀ o f h, (f, h) ∉ l → w.noUsada o f h = st.noUsada o f h
  porOferta : l.Nodup → (ofertasValidas md).Nodup → ∀ o f h,
    (asignadoOferta new o f h = 0 ∧ w.noUsada o f h = st.noUsada o f h) ∨
      (0 < asignadoOferta new o f h ∧
        asignadoOferta new o f h ≤ capacidadDisponible md it prev o f h ∧
        w.noUsada o f h = capacidadDisponible md it prev o f h - asignadoOferta new o f h)
  eInv : ∀ o f h, 0 < w.noUsada o f h → 0 < st.noUsada o f h ∨ w.restante f h ≤ Eps
  total_eq : w.total = st.total + (new.map Asig.cantidad).sum

/-- The relation between consecutive audit tables: a round's
unused-capacity cell is "capacity read this round minus quantity
assigned" where the round assigned, and 0 where it did not; it is
nonnegative and bounded by the capacity the round read. -/
structure InvRon (md : ModelData) (s : LoopSt) : Prop where
  it_eq : s.it = s.rondas.length + 1
  prev_link : ∀ rd, s.rondas.getLast? = some rd → s.prevNoUsada = rd.noUsada
  cap_nn : ∀ o f h, 0 ≤ capacidadDisponible md s.it s.prevNoUsada o f h
  por_ronda : ∀ j rd, s.rondas[j]? = some rd → ∀ o f h,
    (asignadoOferta rd.asigs o f h = 0 → rd.noUsada o f h = 0) ∧
    (0 < asignadoOferta rd.asigs o f h →
      rd.noUsada o f h = capEntrada md s.rondas j o f h - asignadoOferta rd.asigs o f h) ∧
    0 ≤ rd.noUsada o f h ∧ rd.noUsada o f h ≤ capEntrada md s.rondas j o f h


/-! ## Basic lemmas -/

theorem EpsPos : 0 < Eps := by norm_num [Eps]

theorem updSlot_same (g : Nat → Nat → ℚ) (f h : Nat) (v : ℚ) :
    updSlot g f h v f h = v := by simp [updSlot]

theorem updSlot_ne (g : Nat → Nat → ℚ) (f h : Nat) (v : ℚ) (f' h' : Nat)
    (hne : ¬(f' = f ∧ h' = h)) : updSlot g f h v f' h' = g f' h' := by
  simp [updSlot, hne]

theorem updCap_same (g : String → Nat → Nat → ℚ) (o : String) (f h : Nat) (v : ℚ) :
    updCap g o f h v o f h = v := by simp [updCap]

theorem updCap_ne (g : String → Nat → Nat → ℚ) (o : String) (f h : Nat) (v : ℚ)
    (o' : String) (f' h' : Nat) (hne : ¬(o' = o ∧ f' = f ∧ h' = h)) :
    updCap g o f h v o' f' h' = g o' f' h' := by
  simp [updCap, hne]

theorem asignadoEnSlot_nil (f h : Nat) : asignadoEnSlot [] f h = 0 := rfl

theorem asignadoEnSlot_cons (a : Asig) (l : List Asig) (f h : Nat) :
    asignadoEnSlot (a :: l) f h =
      (if a.fecha = f ∧ a.hora = h then a.cantidad else 0) + asignadoEnSlot l f h := by
  by_cases hc : a.fecha = f ∧ a.hora = h <;>
    simp [asignadoEnSlot, List.filter_cons, hc]

theorem asignadoEnSlot_append (l₁ l₂ : List Asig) (f h : Nat) :
    asignadoEnSlot (l₁ ++ l₂) f h = asignadoEnSlot l₁ f h + asignadoEnSlot l₂ f h := by
  simp [asignadoEnSlot, List.filter_append]

theorem asignadoEnSlot_nonneg (l : List Asig) (f h : Nat)
    (hl : ∀ a ∈ l, 0 ≤ a.cantidad) : 0 ≤ asignadoEnSlot l f h := by
  induction l with
  | nil => simp [asignadoEnSlot_nil]
  | cons a l ih =>
    rw [asignadoEnSlot_cons]
    have ha := hl a (by simp)
    have hrest : 0 ≤ asignadoEnSlot l f h := ih fun b hb => hl b (by simp [hb])
    split <;> linarith

theorem asignadoEnSlot_eq_zero (l : List Asig) (f h : Nat)
    (hl : ∀ a ∈ l, ¬(a.fecha = f ∧ a.hora = h)) : asignadoEnSlot l f h = 0 := by
  induction l with
  | nil => rfl
  | cons a l ih =>
    rw [asignadoEnSlot_cons, if_neg (hl a (by simp))]
    rw [ih fun b hb => hl b (by simp [hb])]
    ring

theorem asignadoOferta_nil (o : String) (f h : Nat) : asignadoOferta [] o f h = 0 := rfl

theorem asignadoOferta_cons (a : Asig) (l : List Asig) (o : String) (f h : Nat) :
    asignadoOferta (a :: l) o f h =
      (if a.oferta = o ∧ a.fecha = f ∧ a.hora = h then a.cantidad else 0) +
        asignadoOferta l o f h := by
  by_cases hc : a.oferta = o ∧ a.fecha = f ∧ a.hora = h <;>
    simp [asignadoOferta, List.filter_cons, hc]

theorem asignadoOferta_append (l₁ l₂ : List Asig) (o : String) (f h : Nat) :
    asignadoOferta (l₁ ++ l₂) o f h = asignadoOferta l₁ o f h + asignadoOferta l₂ o f h := by
  simp [asignadoOferta, List.filter_append]

theorem asignadoOferta_eq_zero (l : List Asig) (o : String) (f h : Nat)
    (hl : ∀ a ∈ l, ¬(a.oferta = o ∧ a.fecha = f ∧ a.hora = h)) :
    asignadoOferta l o f h = 0 := by
  induction l with
  | nil => rfl
  | cons a l ih =>
    rw [asignadoOferta_cons, if_neg (hl a (by simp))]
    rw [ih fun b hb => hl b (by simp [hb])]
    ring

theorem asignadoOferta_nonneg (l : List Asig) (o : String) (f h : Nat)
    (hl : ∀ a ∈ l, 0 ≤ a.cantidad) : 0 ≤ asignadoOferta l o f h := by
  induction l with
  | nil => simp [asignadoOferta_nil]
  | cons a l ih =>
    rw [asignadoOferta_cons]
    have ha := hl a (by simp)
    have hrest : 0 ≤ asignadoOferta l o f h := ih fun b hb => hl b (by simp [hb])
    split <;> linarith

/-! ## Specification of the per-slot candidate walk -/

theorem asignadoOferta_pos_mem (l : List Asig) (o : String) (f h : Nat)
    (hpos : 0 < asignadoOferta l o f h) :
    ∃ a ∈ l, a.oferta = o ∧ a.fecha = f ∧ a.hora = h := by
  by_contra hx
  push_neg at hx
  rw [asignadoOferta_eq_zero l o f h fun a ha hc => hx a ha hc.1 hc.2.1 hc.2.2] at hpos
  exact lt_irrefl 0 hpos

theorem sum_cantidad_nonneg (l : List Asig) (hl : ∀ a ∈ l, 0 ≤ a.cantidad) :
    0 ≤ (l.map Asig.cantidad).sum := by
  refine List.sum_nonneg fun x hx => ?_
  obtain ⟨a, ha, rfl⟩ := List.mem_map.mp hx
  exact hl a ha

theorem walkOut_nil (it f h : Nat) (capF : String → ℚ) (cands : List Cand) (st : WalkSt) :
    WalkOut it f h capF cands [] st st := by
  constructor
  · simp
  · intro a ha
    simp at ha
  · intro f' h' _
    rfl
  · simp
  · intro h0
    exact h0
  · intro o f' h' _
    rfl
  · intro _ o
    exact Or.inl ⟨rfl, rfl⟩
  · intro o hpos
    exact Or.inl hpos
  · simp

theorem walkOut_weaken (c : Cand) {it f h : Nat} {capF : String → ℚ}
    {rest : List Cand} {new : List Asig} {st w : WalkSt}
    (ho : WalkOut it f h capF rest new st w) :
    WalkOut it f h capF (c :: rest) new st w := by
  constructor
  · exact ho.asigs_eq
  · intro a ha
    obtain ⟨h1, h2, h3, h4, h5⟩ := ho.new_mem a ha
    refine ⟨h1, h2, h3, h4, ?_⟩
    simp only [List.map_cons, List.mem_cons]
    exact Or.inr h5
  · exact ho.restante_frame
  · exact ho.restante_eq
  · exact ho.restante_nonneg
  · exact ho.noUsada_frame
  · intro hpw o
    exact ho.porOferta (List.pairwise_cons.mp hpw).2 o
  · exact ho.eInv
  · exact ho.total_eq

theorem walkOut_trans {it f h : Nat} {capF : String → ℚ}
    {cands₁ cands₂ : List Cand} {new₁ new₂ : List Asig} {st₁ st₂ st₃ : WalkSt}
    (h₁ : WalkOut it f h capF cands₁ new₁ st₁ st₂)
    (h₂ : WalkOut it f h capF cands₂ new₂ st₂ st₃) :
    WalkOut it f h capF (cands₁ ++ cands₂) (new₁ ++ new₂) st₁ st₃ := by
  have hnn₁ : ∀ a ∈ new₁, 0 ≤ a.cantidad := fun a ha => le_of_lt (h₁.new_mem a ha).2.2.2.1
  have hnn₂ : ∀ a ∈ new₂, 0 ≤ a.cantidad := fun a ha => le_of_lt (h₂.new_mem a ha).2.2.2.1
  constructor
  · rw [h₂.asigs_eq, h₁.asigs_eq, List.append_assoc]
  · intro a ha
    rcases List.mem_append.mp ha with ha | ha
    · obtain ⟨g1, g2, g3, g4, g5⟩ := h₁.new_mem a ha
      exact ⟨g1, g2, g3, g4, by simp only [List.map_append, List.mem_append]; exact Or.inl g5⟩
    · obtain ⟨g1, g2, g3, g4, g5⟩ := h₂.new_mem a ha
      exact ⟨g1, g2, g3, g4, by simp only [List.map_append, List.mem_append]; exact Or.inr g5⟩
  · intro f' h' hne
    rw [h₂.restante_frame f' h' hne, h₁.restante_frame f' h' hne]
  · rw [h₂.restante_eq, h₁.restante_eq, List.map_append, List.sum_append]
    ring
  · intro h0
    exact h₂.restante_nonneg (h₁.restante_nonneg h0)
  · intro o f' h' hne
    rw [h₂.noUsada_frame o f' h' hne, h₁.noUsada_frame o f' h' hne]
  · intro hpw o
    have hpw' := List.pairwise_append.mp hpw
    have hq₁ := h₁.porOferta hpw'.1 o
    have hq₂ := h₂.porOferta hpw'.2.1 o
    have hsum : asignadoOferta (new₁ ++ new₂) o f h =
        asignadoOferta new₁ o f h + asignadoOferta new₂ o f h :=
      asignadoOferta_append _ _ _ _ _
    rcases hq₁ with hq₁ | hq₁ <;> rcases hq₂ with hq₂ | hq₂
    · left
      rw [hsum, hq₁.1, hq₂.1, hq₂.2, hq₁.2]
      exact ⟨by ring, rfl⟩
    · right
      rw [hsum, hq₁.1]
      refine ⟨by linarith [hq₂.1], by linarith [hq₂.2.1], ?_⟩
      rw [hq₂.2.2]
      ring
    · -- o was assigned in the first segment; the second leaves it alone
      right
      rw [hsum, hq₂.1]
      refine ⟨by linarith [hq₁.1], by linarith [hq₁.2.1], ?_⟩
      rw [hq₂.2, hq₁.2.2]
      ring
    · -- impossible: the same offer cannot be a candidate of both segments
      exfalso
      obtain ⟨a₁, ha₁, hao₁, _, _⟩ := asignadoOferta_pos_mem _ _ _ _ hq₁.1
      obtain ⟨a₂, ha₂, hao₂, _, _⟩ := asignadoOferta_pos_mem _ _ _ _ hq₂.1
      obtain ⟨c₁, hc₁, hco₁⟩ := List.mem_map.mp (h₁.new_mem a₁ ha₁).2.2.2.2
      obtain ⟨c₂, hc₂, hco₂⟩ := List.mem_map.mp (h₂.new_mem a₂ ha₂).2.2.2.2
      exact hpw'.2.2 c₁ hc₁ c₂ hc₂ (by rw [hco₁, hco₂, hao₁, hao₂])
  · intro o hpos
    rcases h₂.eInv o hpos with hcase | hcase
    · rcases h₁.eInv o hcase with hcase' | hcase'
      · exact Or.inl hcase'
      · right
        have : st₃.restante f h = st₂.restante f h - (new₂.map Asig.cantidad).sum :=
          h₂.restante_eq
        have hnn := sum_cantidad_nonneg new₂ hnn₂
        linarith
    · exact Or.inr hcase
  · rw [h₂.total_eq, h₁.total_eq, List.map_append, List.sum_append]
    ring

theorem walkOut_step (it f h : Nat) (capF : String → ℚ) (c : Cand) (d : ℚ) (st : WalkSt)
    (hsync : d = st.restante f h) (hcapc : c.capacidad = capF c.oferta)
    (he : 0 < min d c.capacidad) :
    WalkOut it f h capF [c] [⟨c.oferta, f, h, it, min d c.capacidad⟩] st
      { restante := updSlot st.restante f h (st.restante f h - min d c.capacidad)
        noUsada := updCap st.noUsada c.oferta f h (c.capacidad - min d c.capacidad)
        asigs := st.asigs ++ [⟨c.oferta, f, h, it, min d c.capacidad⟩]
        total := st.total + min d c.capacidad } := by
  have he_le_d : min d c.capacidad ≤ d := min_le_left _ _
  have he_le_cap : min d c.capacidad ≤ c.capacidad := min_le_right _ _
  constructor
  · rfl
  · intro a ha
    simp only [List.mem_singleton] at ha
    subst ha
    refine ⟨rfl, rfl, rfl, he, by simp⟩
  · intro f' h' hne
    exact updSlot_ne _ _ _ _ _ _ hne
  · dsimp only
    rw [updSlot_same]
    simp
  · intro h0
    dsimp only at h0 ⊢
    rw [updSlot_same]
    linarith [he_le_d, hsync]
  · intro o f' h' hne
    exact updCap_ne _ _ _ _ _ _ _ _ fun hx => hne ⟨hx.2.1, hx.2.2⟩
  · intro _ o
    by_cases ho : c.oferta = o
    · right
      have hval : asignadoOferta [(⟨c.oferta, f, h, it, min d c.capacidad⟩ : Asig)] o f h =
          min d c.capacidad := by
        rw [asignadoOferta_cons, if_pos ⟨ho, rfl, rfl⟩, asignadoOferta_nil]
        ring
      rw [hval]
      subst ho
      refine ⟨he, hcapc ▸ he_le_cap, ?_⟩
      dsimp only
      rw [updCap_same, hcapc]
    · left
      constructor
      · exact asignadoOferta_eq_zero _ _ _ _ fun a ha => by
          simp only [List.mem_singleton] at ha
          subst ha
          exact fun hx => ho hx.1
      · exact updCap_ne _ _ _ _ _ _ _ _ fun hx => ho hx.1.symm
  · intro o hpos
    dsimp only at hpos ⊢
    by_cases ho : o = c.oferta
    · subst ho
      rw [updCap_same] at hpos
      have hec : min d c.capacidad < c.capacidad := by linarith
      have hed : min d c.capacidad = d := by
        rcases min_cases d c.capacidad with ⟨hm, _⟩ | ⟨hm, _⟩
        · exact hm
        · rw [hm] at hec
          exact absurd hec (lt_irrefl _)
      right
      rw [updSlot_same, ← hsync, hed]
      have := EpsPos
      linarith
    · left
      have hne : updCap st.noUsada c.oferta f h (c.capacidad - min d c.capacidad) o f h =
          st.noUsada o f h :=
        updCap_ne _ _ _ _ _ _ _ _ fun hx => ho hx.1
      rwa [hne] at hpos
  · simp

theorem asignarOfertas_spec (it f h : Nat) (capF : String → ℚ) :
    ∀ (cands : List Cand) (d : ℚ) (st : WalkSt),
      d = st.restante f h →
      (∀ c ∈ cands, c.capacidad = capF c.oferta) →
      ∃ new, WalkOut it f h capF cands new st (asignarOfertas it f h cands d st) := by
  intro cands
  induction cands with
  | nil =>
    intro d st _ _
    exact ⟨[], walkOut_nil it f h capF [] st⟩
  | cons c rest ih =>
    intro d st hsync hcap
    have hcapc : c.capacidad = capF c.oferta := hcap c (by simp)
    have hcap' : ∀ c' ∈ rest, c'.capacidad = capF c'.oferta :=
      fun c' hc' => hcap c' (by simp [hc'])
    by_cases he : 0 < min d c.capacidad
    · have hstep := walkOut_step it f h capF c d st hsync hcapc he
      by_cases hd' : d - min d c.capacidad ≤ Eps
      · refine ⟨[⟨c.oferta, f, h, it, min d c.capacidad⟩], ?_⟩
        have hrun : asignarOfertas it f h (c :: rest) d st =
            { restante := updSlot st.restante f h (st.restante f h - min d c.capacidad)
              noUsada := updCap st.noUsada c.oferta f h (c.capacidad - min d c.capacidad)
              asigs := st.asigs ++ [⟨c.oferta, f, h, it, min d c.capacidad⟩]
              total := st.total + min d c.capacidad } := by
          rw [asignarOfertas]
          simp only [if_pos he, if_pos hd']
        rw [hrun]
        have := walkOut_trans hstep (walkOut_nil it f h capF rest _)
        simpa using this
      · obtain ⟨new', hout⟩ := ih (d - min d c.capacidad)
          { restante := updSlot st.restante f h (st.restante f h - min d c.capacidad)
            noUsada := updCap st.noUsada c.oferta f h (c.capacidad - min d c.capacidad)
            asigs := st.asigs ++ [⟨c.oferta, f, h, it, min d c.capacidad⟩]
            total := st.total + min d c.capacidad }
          (by dsimp only; rw [updSlot_same, hsync]) hcap'
        refine ⟨⟨c.oferta, f, h, it, min d c.capacidad⟩ :: new', ?_⟩
        have hrun : asignarOfertas it f h (c :: rest) d st =
            asignarOfertas it f h rest (d - min d c.capacidad)
              { restante := updSlot st.restante f h (st.restante f h - min d c.capacidad)
                noUsada := updCap st.noUsada c.oferta f h (c.capacidad - min d c.capacidad)
                asigs := st.asigs ++ [⟨c.oferta, f, h, it, min d c.capacidad⟩]
                total := st.total + min d c.capacidad } := by
          rw [asignarOfertas]
          simp only [if_pos he, if_neg hd']
        rw [hrun]
        have := walkOut_trans hstep hout
        simpa using this
    · by_cases hdem : d ≤ Eps
      · have hrun : asignarOfertas it f h (c :: rest) d st = st := by
          rw [asignarOfertas]
          simp only [if_neg he, if_pos hdem]
        rw [hrun]
        exact ⟨[], walkOut_nil it f h capF (c :: rest) st⟩
      · have hrun : asignarOfertas it f h (c :: rest) d st =
            asignarOfertas it f h rest d st := by
          rw [asignarOfertas]
          simp only [if_neg he, if_neg hdem]
        rw [hrun]
        obtain ⟨new', hout⟩ := ih d st hsync hcap'
        exact ⟨new', walkOut_weaken c hout⟩

/-! ## Specification of one round over a list of slots -/

theorem recolectar_mem {md : ModelData} {it : Nat} {prev : String → Nat → Nat → ℚ}
    {f h : Nat} {c : Cand} (hc : c ∈ recolectar md it prev f h) :
    c.oferta ∈ ofertasValidas md ∧
      c.capacidad = capacidadDisponible md it prev c.oferta f h ∧ 0 < c.capacidad := by
  simp only [recolectar, List.mem_map, List.mem_filter] at hc
  obtain ⟨o, ⟨ho, hcap⟩, rfl⟩ := hc
  exact ⟨ho, rfl, of_decide_eq_true hcap⟩

theorem ordenar_perm (l : List Cand) : (ordenar l).Perm l :=
  List.perm_insertionSort _ l

theorem ordenar_mem {l : List Cand} {c : Cand} : c ∈ ordenar l ↔ c ∈ l :=
  (ordenar_perm l).mem_iff

theorem recolectar_pairwise (md : ModelData) (it : Nat)
    (prev : String → Nat → Nat → ℚ) (f h : Nat) (hnd : (ofertasValidas md).Nodup) :
    (recolectar md it prev f h).Pairwise fun c c' => c.oferta ≠ c'.oferta := by
  unfold recolectar
  exact List.Pairwise.map _ (fun a b hab => hab) (List.Nodup.filter _ hnd)

theorem ordenar_pairwise_ne {l : List Cand}
    (hp : l.Pairwise fun c c' => c.oferta ≠ c'.oferta) :
    (ordenar l).Pairwise fun c c' => c.oferta ≠ c'.oferta :=
  ((ordenar_perm l).pairwise_iff fun hxy => Ne.symm hxy).mpr hp

theorem asignadoEnSlot_of_all (new : List Asig) (f h : Nat)
    (hall : ∀ a ∈ new, a.fecha = f ∧ a.hora = h) :
    asignadoEnSlot new f h = (new.map Asig.cantidad).sum := by
  induction new with
  | nil => rfl
  | cons a l ih =>
    rw [asignadoEnSlot_cons, if_pos (hall a (by simp)),
      ih fun b hb => hall b (by simp [hb])]
    simp

theorem rondaOut_nil (md : ModelData) (it : Nat) (prev : String → Nat → Nat → ℚ)
    (l : List (Nat × Nat)) (st : WalkSt) : RondaOut md it prev l [] st st := by
  constructor
  · simp
  · intro a ha
    simp at ha
  · intro f h
    rw [asignadoEnSlot_nil]
    ring
  · intro f h h0
    exact h0
  · intro o f h _
    rfl
  · intro _ _ o f h
    exact Or.inl ⟨rfl, rfl⟩
  · intro o f h hpos
    exact Or.inl hpos
  · simp

theorem rondaOut_trans {md : ModelData} {it : Nat} {prev : String → Nat → Nat → ℚ}
    {l₁ l₂ : List (Nat × Nat)} {new₁ new₂ : List Asig} {st₁ st₂ st₃ : WalkSt}
    (h₁ : RondaOut md it prev l₁ new₁ st₁ st₂)
    (h₂ : RondaOut md it prev l₂ new₂ st₂ st₃) :
    RondaOut md it prev (l₁ ++ l₂) (new₁ ++ new₂) st₁ st₃ := by
  have hnn₁ : ∀ a ∈ new₁, 0 ≤ a.cantidad := fun a ha => le_of_lt (h₁.new_mem a ha).2.2
  have hnn₂ : ∀ a ∈ new₂, 0 ≤ a.cantidad := fun a ha => le_of_lt (h₂.new_mem a ha).2.2
  constructor
  · rw [h₂.asigs_eq, h₁.asigs_eq, List.append_assoc]
  · intro a ha
    rcases List.mem_append.mp ha with ha | ha
    · obtain ⟨g1, g2, g3⟩ := h₁.new_mem a ha
      exact ⟨g1, List.mem_append.mpr (Or.inl g2), g3⟩
    · obtain ⟨g1, g2, g3⟩ := h₂.new_mem a ha
      exact ⟨g1, List.mem_append.mpr (Or.inr g2), g3⟩
  · intro f h
    rw [h₂.restante_eq, h₁.restante_eq, asignadoEnSlot_append]
    ring
  · intro f h h0
    exact h₂.restante_nonneg f h (h₁.restante_nonneg f h h0)
  · intro o f h hni
    rw [List.mem_append] at hni
    push_neg at hni
    rw [h₂.noUsada_frame o f h hni.2, h₁.noUsada_frame o f h hni.1]
  · intro hnd hov o f h
    rw [List.nodup_append] at hnd
    have hq₁ := h₁.porOferta hnd.1 hov o f h
    have hq₂ := h₂.porOferta hnd.2.1 hov o f h
    have hsum : asignadoOferta (new₁ ++ new₂) o f h =
        asignadoOferta new₁ o f h + asignadoOferta new₂ o f h :=
      asignadoOferta_append _ _ _ _ _
    rcases hq₁ with hq₁ | hq₁ <;> rcases hq₂ with hq₂ | hq₂
    · left
      rw [hsum, hq₁.1, hq₂.1, hq₂.2, hq₁.2]
      exact ⟨by ring, rfl⟩
    · right
      rw [hsum, hq₁.1]
      refine ⟨by linarith [hq₂.1], by linarith [hq₂.2.1], ?_⟩
      rw [hq₂.2.2]
      ring
    · right
      rw [hsum, hq₂.1]
      refine ⟨by linarith [hq₁.1], by linarith [hq₁.2.1], ?_⟩
      rw [hq₂.2, hq₁.2.2]
      ring
    · -- impossible: the slot of the offer's record would lie in both lists
      exfalso
      obtain ⟨a₁, ha₁, _, haf₁, hah₁⟩ := asignadoOferta_pos_mem _ _ _ _ hq₁.1
      obtain ⟨a₂, ha₂, _, haf₂, hah₂⟩ := asignadoOferta_pos_mem _ _ _ _ hq₂.1
      have hm₁ := (h₁.new_mem a₁ ha₁).2.1
      have hm₂ := (h₂.new_mem a₂ ha₂).2.1
      rw [haf₁, hah₁] at hm₁
      rw [haf₂, hah₂] at hm₂
      exact hnd.2.2 hm₁ hm₂
  · intro o f h hpos
    rcases h₂.eInv o f h hpos with hcase | hcase
    · rcases h₁.eInv o f h hcase with hcase' | hcase'
      · exact Or.inl hcase'
      · right
        have heq := h₂.restante_eq f h
        have hnn := asignadoEnSlot_nonneg new₂ f h hnn₂
        linarith
    · exact Or.inr hcase
  · rw [h₂.total_eq, h₁.total_eq, List.map_append, List.sum_append]
    ring

theorem procesarSlot_spec (md : ModelData) (it : Nat)
    (prev : String → Nat → Nat → ℚ) (fh : Nat × Nat) (st : WalkSt) :
    ∃ new, RondaOut md it prev [fh] new st (procesarSlot md it prev st fh) := by
  by_cases hskip : st.restante fh.1 fh.2 ≤ Eps
  · rw [procesarSlot, if_pos hskip]
    exact ⟨[], rondaOut_nil md it prev [fh] st⟩
  · rw [procesarSlot, if_neg hskip]
    have hcap : ∀ c ∈ ordenar (recolectar md it prev fh.1 fh.2),
        c.capacidad = (fun o => capacidadDisponible md it prev o fh.1 fh.2) c.oferta :=
      fun c hc => (recolectar_mem (ordenar_mem.mp hc)).2.1
    obtain ⟨new, hw⟩ := asignarOfertas_spec it fh.1 fh.2
      (fun o => capacidadDisponible md it prev o fh.1 fh.2)
      (ordenar (recolectar md it prev fh.1 fh.2)) (st.restante fh.1 fh.2) st rfl hcap
    refine ⟨new, ?_⟩
    have hall : ∀ a ∈ new, a.fecha = fh.1 ∧ a.hora = fh.2 :=
      fun a ha => ⟨(hw.new_mem a ha).2.1, (hw.new_mem a ha).2.2.1⟩
    constructor
    · exact hw.asigs_eq
    · intro a ha
      obtain ⟨g1, g2, g3, g4, _⟩ := hw.new_mem a ha
      refine ⟨g1, ?_, g4⟩
      rw [g2, g3]
      simp
    · intro f h
      by_cases hfh : f = fh.1 ∧ h = fh.2
      · obtain ⟨rfl, rfl⟩ := hfh
        rw [hw.restante_eq, asignadoEnSlot_of_all new _ _ hall]
      · rw [hw.restante_frame f h hfh, asignadoEnSlot_eq_zero]
        · ring
        · intro a ha hx
          exact hfh ⟨by rw [← (hall a ha).1, hx.1], by rw [← (hall a ha).2, hx.2]⟩
    · intro f h h0
      by_cases hfh : f = fh.1 ∧ h = fh.2
      · obtain ⟨rfl, rfl⟩ := hfh
        exact hw.restante_nonneg h0
      · rw [hw.restante_frame f h hfh]
        exact h0
    · intro o f h hni
      refine hw.noUsada_frame o f h fun hx => hni ?_
      rw [hx.1, hx.2]
      simp
    · intro _ hov o f h
      by_cases hfh : f = fh.1 ∧ h = fh.2
      · obtain ⟨rfl, rfl⟩ := hfh
        exact hw.porOferta (ordenar_pairwise_ne
          (recolectar_pairwise md it prev _ _ hov)) o
      · left
        constructor
        · refine asignadoOferta_eq_zero _ _ _ _ fun a ha hx => hfh ?_
          exact ⟨by rw [← (hall a ha).1, hx.2.1], by rw [← (hall a ha).2, hx.2.2]⟩
        · exact hw.noUsada_frame o f h hfh
    · intro o f h hpos
      by_cases hfh : f = fh.1 ∧ h = fh.2
      · obtain ⟨rfl, rfl⟩ := hfh
        exact hw.eInv o hpos
      · rw [hw.noUsada_frame o f h hfh] at hpos
        exact Or.inl hpos
    · exact hw.total_eq

theorem foldl_procesarSlot_spec (md : ModelData) (it : Nat)
    (prev : String → Nat → Nat → ℚ) :
    ∀ (l : List (Nat × Nat)) (st : WalkSt),
      ∃ new, RondaOut md it prev l new st (l.foldl (procesarSlot md it prev) st) := by
  intro l
  induction l with
  | nil =>
    intro st
    exact ⟨[], rondaOut_nil md it prev [] st⟩
  | cons fh l ih =>
    intro st
    obtain ⟨new₁, h₁⟩ := procesarSlot_spec md it prev fh st
    obtain ⟨new₂, h₂⟩ := ih (procesarSlot md it prev st fh)
    refine ⟨new₁ ++ new₂, ?_⟩
    have := rondaOut_trans h₁ h₂
    simpa using this

/-- The full effect of one round (modelo.py lines 352-459): starting
from the fresh all-zero tables, relative to the remaining-demand map it
was given. -/
theorem procesarRonda_spec (md : ModelData) (it : Nat)
    (prev : String → Nat → Nat → ℚ) (r0 : Nat → Nat → ℚ) :
    ∃ new, RondaOut md it prev (slots md) new
      { restante := r0, noUsada := fun _ _ _ => 0, asigs := [], total := 0 }
      (procesarRonda md it prev r0) :=
  foldl_procesarSlot_spec md it prev (slots md) _

/-! ## Rounds after the first never assign anything -/

theorem procesarSlot_noop (md : ModelData) (it : Nat)
    (prev : String → Nat → Nat → ℚ) (hit : it ≠ 1) (fh : Nat × Nat) (st : WalkSt)
    (hpre : ∀ o, 0 < prev o fh.1 fh.2 → st.restante fh.1 fh.2 ≤ Eps) :
    procesarSlot md it prev st fh = st := by
  by_cases hskip : st.restante fh.1 fh.2 ≤ Eps
  · rw [procesarSlot, if_pos hskip]
  · rw [procesarSlot, if_neg hskip]
    have hrec : recolectar md it prev fh.1 fh.2 = [] := by
      unfold recolectar
      have : ((ofertasValidas md).filter fun o =>
          decide (0 < capacidadDisponible md it prev o fh.1 fh.2)) = [] := by
        refine List.filter_eq_nil_iff.mpr fun o _ => ?_
        simp only [decide_eq_true_eq]
        intro hpos
        rw [capacidadDisponible, if_neg hit] at hpos
        exact hskip (hpre o hpos)
      rw [this]
      rfl
    rw [hrec]
    rfl

theorem procesarRonda_noop (md : ModelData) (it : Nat)
    (prev : String → Nat → Nat → ℚ) (r0 : Nat → Nat → ℚ) (hit : it ≠ 1)
    (hpre : ∀ o f h, 0 < prev o f h → r0 f h ≤ Eps) :
    procesarRonda md it prev r0 =
      { restante := r0, noUsada := fun _ _ _ => 0, asigs := [], total := 0 } := by
  unfold procesarRonda
  generalize slots md = l
  induction l with
  | nil => rfl
  | cons fh l ih =>
    rw [List.foldl_cons, procesarSlot_noop md it prev hit fh _ fun o => hpre o fh.1 fh.2]
    exact ih

/-! ## The loop: termination within two iterations, fuel irrelevance -/

theorem siguiente_restante (st : LoopSt) (w : WalkSt) (tot : ℚ) :
    (siguiente st w tot).restante = w.restante := rfl

theorem totalRestante_sub (md : ModelData) (r r' : Nat → Nat → ℚ) (g : Nat → Nat → ℚ)
    (hr : ∀ f h, r' f h = r f h - g f h) :
    totalRestante md r' = totalRestante md r -
      ((slots md).map fun fh => g fh.1 fh.2).sum := by
  unfold totalRestante
  generalize slots md = l
  induction l with
  | nil => simp
  | cons fh l ih =>
    simp only [List.map_cons, List.sum_cons]
    rw [ih, hr fh.1 fh.2]
    ring

theorem sum_indicator_slots (l : List (Nat × Nat)) (hnd : l.Nodup) (ff hh : Nat)
    (hm : (ff, hh) ∈ l) (v : ℚ) :
    (l.map fun fh => if ff = fh.1 ∧ hh = fh.2 then v else 0).sum = v := by
  induction l with
  | nil => simp at hm
  | cons x xs ih =>
    simp only [List.map_cons, List.sum_cons]
    by_cases hx : ff = x.1 ∧ hh = x.2
    · have hxe : (ff, hh) = x := by
        obtain ⟨h1, h2⟩ := hx
        rw [h1, h2]
    -- the head matches; no slot of `xs` can match again
      have hnotin : (ff, hh) ∉ xs := by
        rw [hxe]
        exact (List.nodup_cons.mp hnd).1
      have hzero : (xs.map fun fh => if ff = fh.1 ∧ hh = fh.2 then v else 0).sum = 0 := by
        refine List.sum_eq_zero fun y hy => ?_
        obtain ⟨fh, hfh, rfl⟩ := List.mem_map.mp hy
        rw [if_neg]
        intro hc
        apply hnotin
        have : (ff, hh) = fh := by
          obtain ⟨h1, h2⟩ := hc
          rw [h1, h2]
        rw [this]
        exact hfh
      rw [if_pos hx, hzero]
      ring
    · have hm' : (ff, hh) ∈ xs := by
        rcases List.mem_cons.mp hm with hcase | hcase
        · exact absurd ⟨congrArg Prod.fst hcase, congrArg Prod.snd hcase⟩ hx
        · exact hcase
      rw [if_neg hx, ih (List.nodup_cons.mp hnd).2 hm']
      ring

theorem sum_map_add_rat (l : List (Nat × Nat)) (f g : Nat × Nat → ℚ) :
    (l.map fun fh => f fh + g fh).sum = (l.map f).sum + (l.map g).sum := by
  induction l with
  | nil => simp
  | cons x xs ih =>
    simp only [List.map_cons, List.sum_cons, ih]
    ring

theorem sum_asignadoEnSlot (l : List (Nat × Nat)) (hnd : l.Nodup) (new : List Asig)
    (hmem : ∀ a ∈ new, (a.fecha, a.hora) ∈ l) :
    ((l.map fun fh => asignadoEnSlot new fh.1 fh.2).sum) = (new.map Asig.cantidad).sum := by
  induction new with
  | nil =>
    simp only [asignadoEnSlot_nil]
    simp
  | cons a rest ih =>
    have hrw : (l.map fun fh => asignadoEnSlot (a :: rest) fh.1 fh.2) =
        l.map fun fh => (if a.fecha = fh.1 ∧ a.hora = fh.2 then a.cantidad else 0) +
          asignadoEnSlot rest fh.1 fh.2 := by
      refine List.map_congr_left fun fh _ => ?_
      exact asignadoEnSlot_cons a rest fh.1 fh.2
    rw [hrw, sum_map_add_rat, sum_indicator_slots l hnd a.fecha a.hora
      (hmem a (by simp)) a.cantidad, ih fun b hb => hmem b (by simp [hb])]
    simp

/-- The total remaining demand after a round is the total before it
minus the quantity the round assigned (exact, in ℚ). -/
theorem totalRestante_after (md : ModelData) (hnd : (slots md).Nodup)
    {it : Nat} {prev : String → Nat → Nat → ℚ} {new : List Asig} {stI w : WalkSt}
    (hR : RondaOut md it prev (slots md) new stI w) :
    totalRestante md w.restante =
      totalRestante md stI.restante - (new.map Asig.cantidad).sum := by
  rw [totalRestante_sub md stI.restante w.restante
    (fun f h => asignadoEnSlot new f h) hR.restante_eq,
    sum_asignadoEnSlot (slots md) hnd new fun a ha => (hR.new_mem a ha).2.1]

theorem iterar_succ (md : ModelData) (n : Nat) (st : LoopSt) :
    iterar md (n + 1) st =
      if totalRestante md st.restante < Eps then some st
      else if 1 < st.it ∧
          |st.demandaAnterior - totalRestante md st.restante| < Eps then some st
      else if (procesarRonda md st.it st.prevNoUsada st.restante).total < Eps then
        some (siguiente st (procesarRonda md st.it st.prevNoUsada st.restante)
          (totalRestante md st.restante))
      else iterar md n (siguiente st (procesarRonda md st.it st.prevNoUsada st.restante)
        (totalRestante md st.restante)) := rfl

/-- Generic transport of an invariant through the loop: any property
preserved by executing one round holds for the loop's result. -/
theorem iterar_inv (md : ModelData) (P : LoopSt → Prop)
    (hstep : ∀ st, P st →
      P (siguiente st (procesarRonda md st.it st.prevNoUsada st.restante)
          (totalRestante md st.restante))) :
    ∀ (n : Nat) (st st' : LoopSt), iterar md n st = some st' → P st → P st' := by
  intro n
  induction n with
  | zero =>
    intro st st' hit
    simp [iterar] at hit
  | succ n ih =>
    intro st st' hit hP
    rw [iterar_succ] at hit
    by_cases h1 : totalRestante md st.restante < Eps
    · rw [if_pos h1] at hit
      exact Option.some_injective _ hit ▸ hP
    · rw [if_neg h1] at hit
      by_cases h2 : 1 < st.it ∧
          |st.demandaAnterior - totalRestante md st.restante| < Eps
      · rw [if_pos h2] at hit
        exact Option.some_injective _ hit ▸ hP
      · rw [if_neg h2] at hit
        by_cases h3 : (procesarRonda md st.it st.prevNoUsada st.restante).total < Eps
        · rw [if_pos h3] at hit
          exact Option.some_injective _ hit ▸ hstep st hP
        · rw [if_neg h3] at hit
          exact ih _ _ hit (hstep st hP)

theorem iterar_fuel_mono (md : ModelData) :
    ∀ (n : Nat) (st st' : LoopSt),
      iterar md n st = some st' → iterar md (n + 1) st = some st' := by
  intro n
  induction n with
  | zero =>
    intro st st' hit
    simp [iterar] at hit
  | succ n ih =>
    intro st st' hit
    rw [iterar_succ] at hit
    rw [iterar_succ]
    by_cases h1 : totalRestante md st.restante < Eps
    · rwa [if_pos h1] at hit ⊢
    · rw [if_neg h1] at hit ⊢
      by_cases h2 : 1 < st.it ∧
          |st.demandaAnterior - totalRestante md st.restante| < Eps
      · rwa [if_pos h2] at hit ⊢
      · rw [if_neg h2] at hit ⊢
        by_cases h3 : (procesarRonda md st.it st.prevNoUsada st.restante).total < Eps
        · rwa [if_pos h3] at hit ⊢
        · rw [if_neg h3] at hit ⊢
          exact ih _ _ hit

theorem iterar_of_two (md : ModelData) (st st' : LoopSt)
    (h2 : iterar md 2 st = some st') :
    ∀ n, 2 ≤ n → iterar md n st = some st' := by
  intro n hn
  induction n with
  | zero => exact absurd hn (by norm_num)
  | succ n ih =>
    rcases Nat.lt_or_ge n 2 with hcase | hcase
    · interval_cases n
      · exact absurd hn (by norm_num)
      · exact h2
    · exact iterar_fuel_mono md n st st' (ih hcase)

/-- The loop always terminates by its second iteration: round 2 reads
its capacities from round 1's unused-capacity tables, which are
positive only at slots whose remaining demand already hit zero, so
round 2 assigns nothing and the `asignacion_total < 1e-6` break fires
(if no earlier break did).  With `slots md` duplicate-free the stop is
always one of the two conditions of modelo.py lines 335 and 457 — the
no-change break of line 341 can never fire. -/
theorem iterar_two_spec (md : ModelData) (st : LoopSt) (hit : st.it = 1) :
    ∃ st', iterar md 2 st = some st' ∧
      ((slots md).Nodup →
        (totalRestante md st'.restante < Eps ∨
          ∃ rd, st'.rondas.getLast? = some rd ∧ rd.total < Eps)) := by
  obtain ⟨new₁, hR₁⟩ := procesarRonda_spec md st.it st.prevNoUsada st.restante
  rw [iterar_succ]
  by_cases h1 : totalRestante md st.restante < Eps
  · rw [if_pos h1]
    exact ⟨st, rfl, fun _ => Or.inl h1⟩
  · rw [if_neg h1]
    have h2 : ¬(1 < st.it ∧
        |st.demandaAnterior - totalRestante md st.restante| < Eps) := by
      rw [hit]
      simp
    rw [if_neg h2]
    set w₁ := procesarRonda md st.it st.prevNoUsada st.restante with hw₁
    by_cases h3 : w₁.total < Eps
    · rw [if_pos h3]
      refine ⟨_, rfl, fun _ => Or.inr ⟨⟨st.it, w₁.noUsada, w₁.asigs, w₁.total⟩, ?_, h3⟩⟩
      exact List.getLast?_concat _
    · rw [if_neg h3]
      -- iteration 2: the pre-round state
      set st₁ := siguiente st w₁ (totalRestante md st.restante) with hst₁
      have hit₁ : st₁.it = 2 := by rw [hst₁, siguiente, hit]
      have hpre : ∀ o f h, 0 < st₁.prevNoUsada o f h → st₁.restante f h ≤ Eps := by
        intro o f h hpos
        have := hR₁.eInv o f h hpos
        rcases this with hcase | hcase
        · exact absurd hcase (by norm_num)
        · exact hcase
      rw [iterar_succ]
      by_cases h4 : totalRestante md st₁.restante < Eps
      · rw [if_pos h4]
        exact ⟨st₁, rfl, fun _ => Or.inl h4⟩
      · rw [if_neg h4]
        have hnoop : procesarRonda md st₁.it st₁.prevNoUsada st₁.restante =
            { restante := st₁.restante, noUsada := fun _ _ _ => 0,
              asigs := [], total := 0 } :=
          procesarRonda_noop md st₁.it st₁.prevNoUsada st₁.restante
            (by rw [hit₁]; norm_num) hpre
        by_cases h5 : 1 < st₁.it ∧
            |st₁.demandaAnterior - totalRestante md st₁.restante| < Eps
        · rw [if_pos h5]
          refine ⟨st₁, rfl, fun hnd => ?_⟩
          -- with duplicate-free slots the no-change break cannot fire:
          -- the demand dropped by exactly the (≥ Eps) round-1 total
          exfalso
          have hacc : totalRestante md st₁.restante =
              totalRestante md st.restante - (new₁.map Asig.cantidad).sum := by
            rw [hst₁, siguiente_restante]
            exact totalRestante_after md hnd hR₁
          have htot₁ : w₁.total = (new₁.map Asig.cantidad).sum := by
            have := hR₁.total_eq
            simpa using this
          have hant : st₁.demandaAnterior = totalRestante md st.restante := rfl
          have habs := h5.2
          rw [hant, hacc] at habs
          have hsumnn : 0 ≤ (new₁.map Asig.cantidad).sum :=
            sum_cantidad_nonneg new₁ fun a ha => le_of_lt (hR₁.new_mem a ha).2.2
          rw [abs_of_nonneg (by linarith)] at habs
          push_neg at h3
          rw [htot₁] at h3
          linarith
        · rw [if_neg h5]
          rw [hnoop]
          have h6 : (0 : ℚ) < Eps := EpsPos
          rw [if_pos (by simpa using h6)]
          refine ⟨_, rfl, fun _ => Or.inr ⟨⟨st₁.it, fun _ _ _ => 0, [], 0⟩, ?_, h6⟩⟩
          exact List.getLast?_concat _

/-! ## Shape of the extracted results -/

theorem extraer_ne_none {md : ModelData} {res : Resultados}
    (hres : extraer_resultados md = some res) : ofertasValidas md ≠ [] := by
  intro hv
  rw [extraer_resultados, if_pos hv] at hres
  cases hres

theorem extraer_spec (md : ModelData) (hv : ofertasValidas md ≠ []) :
    ∃ st', iterar md 2 (estadoInicial md) = some st' ∧
      extraer_resultados md =
        some { rondas := st'.rondas, asigs := st'.asigs
               faltante := fun f h => redondear (st'.restante f h) } := by
  obtain ⟨st', h2, _⟩ := iterar_two_spec md (estadoInicial md) rfl
  refine ⟨st', h2, ?_⟩
  rw [extraer_resultados, if_neg hv]
  have hlen : 0 < (ofertasValidas md).length := List.length_pos.mpr hv
  rw [iterar_of_two md _ _ h2 _ (by omega)]
  rfl

/-- Unpacking `extraer_resultados md = some res`. -/
theorem extraer_some_elim {md : ModelData} {res : Resultados}
    (hres : extraer_resultados md = some res) :
    ∃ st', iterar md 2 (estadoInicial md) = some st' ∧
      res.rondas = st'.rondas ∧ res.asigs = st'.asigs ∧
      res.faltante = fun f h => redondear (st'.restante f h) := by
  obtain ⟨st', h2, heq⟩ := extraer_spec md (extraer_ne_none hres)
  rw [heq] at hres
  obtain rfl := (Option.some_injective _ hres).symm
  exact ⟨st', h2, rfl, rfl, rfl⟩

/-! ## The balance and nonnegativity invariants of the loop -/

theorem iterar_balance (md : ModelData) (n : Nat) (st st' : LoopSt)
    (hit : iterar md n st = some st')
    (hbal : ∀ f h, st.restante f h = restanteInicial md f h - asignadoEnSlot st.asigs f h) :
    ∀ f h, st'.restante f h = restanteInicial md f h - asignadoEnSlot st'.asigs f h := by
  refine iterar_inv md
    (fun s => ∀ f h, s.restante f h = restanteInicial md f h - asignadoEnSlot s.asigs f h)
    ?_ n st st' hit hbal
  intro s hP f h
  obtain ⟨new, hR⟩ := procesarRonda_spec md s.it s.prevNoUsada s.restante
  have hasig : (procesarRonda md s.it s.prevNoUsada s.restante).asigs = new := by
    have := hR.asigs_eq
    simpa using this
  have hrest := hR.restante_eq f h
  show (procesarRonda md s.it s.prevNoUsada s.restante).restante f h = _
  rw [hrest]
  show s.restante f h - asignadoEnSlot new f h = _
  rw [hP f h]
  show _ = restanteInicial md f h -
    asignadoEnSlot (s.asigs ++ (procesarRonda md s.it s.prevNoUsada s.restante).asigs) f h
  rw [hasig, asignadoEnSlot_append]
  ring

theorem iterar_nonneg (md : ModelData) (n : Nat) (st st' : LoopSt)
    (hit : iterar md n st = some st')
    (hnn : ∀ f h, 0 ≤ st.restante f h) : ∀ f h, 0 ≤ st'.restante f h := by
  refine iterar_inv md (fun s => ∀ f h, 0 ≤ s.restante f h) ?_ n st st' hit hnn
  intro s hP f h
  obtain ⟨new, hR⟩ := procesarRonda_spec md s.it s.prevNoUsada s.restante
  exact hR.restante_nonneg f h (hP f h)

theorem iterar_asigs_pos (md : ModelData) (n : Nat) (st st' : LoopSt)
    (hit : iterar md n st = some st')
    (hpos : ∀ a ∈ st.asigs, 0 < a.cantidad) : ∀ a ∈ st'.asigs, 0 < a.cantidad := by
  refine iterar_inv md (fun s => ∀ a ∈ s.asigs, 0 < a.cantidad) ?_ n st st' hit hpos
  intro s hP a ha
  obtain ⟨new, hR⟩ := procesarRonda_spec md s.it s.prevNoUsada s.restante
  have hasig : (procesarRonda md s.it s.prevNoUsada s.restante).asigs = new := by
    have := hR.asigs_eq
    simpa using this
  have ha' : a ∈ s.asigs ++ new := by
    rw [← hasig]
    exact ha
  rcases List.mem_append.mp ha' with hcase | hcase
  · exact hP a hcase
  · exact (hR.new_mem a hcase).2.2

/-! ## The capacity invariant of the loop -/

theorem CO_nonneg (md : ModelData)
    (hq : ∀ o f h q, md.quote o f h = some q → 0 ≤ q.cantidad) :
    ∀ o f h, 0 ≤ CO md o f h := by
  intro o f h
  unfold CO
  cases hqu : md.quote o f h with
  | none => simp
  | some q =>
    simpa using hq o f h q hqu

/-- Through every loop state: the quantity already assigned to an
(offer, slot) plus the capacity the next round will see is at most the
original quoted capacity, and that carried capacity is nonnegative. -/
theorem iterar_cap (md : ModelData) (hnd : (slots md).Nodup)
    (hov : (ofertasValidas md).Nodup)
    (n : Nat) (st st' : LoopSt) (hit : iterar md n st = some st')
    (hP : 1 ≤ st.it ∧ ∀ o f h,
      asignadoOferta st.asigs o f h +
        capacidadDisponible md st.it st.prevNoUsada o f h ≤ CO md o f h ∧
      0 ≤ capacidadDisponible md st.it st.prevNoUsada o f h) :
    1 ≤ st'.it ∧ ∀ o f h,
      asignadoOferta st'.asigs o f h +
        capacidadDisponible md st'.it st'.prevNoUsada o f h ≤ CO md o f h ∧
      0 ≤ capacidadDisponible md st'.it st'.prevNoUsada o f h := by
  refine iterar_inv md (fun s => 1 ≤ s.it ∧ ∀ o f h,
    asignadoOferta s.asigs o f h +
      capacidadDisponible md s.it s.prevNoUsada o f h ≤ CO md o f h ∧
    0 ≤ capacidadDisponible md s.it s.prevNoUsada o f h) ?_ n st st' hit hP
  intro s hs
  obtain ⟨new, hR⟩ := procesarRonda_spec md s.it s.prevNoUsada s.restante
  have hasig : (procesarRonda md s.it s.prevNoUsada s.restante).asigs = new := by
    have := hR.asigs_eq
    simpa using this
  refine ⟨by simp only [siguiente]; omega, ?_⟩
  intro o f h
  have hcd : capacidadDisponible md (s.it + 1)
      (procesarRonda md s.it s.prevNoUsada s.restante).noUsada o f h =
      (procesarRonda md s.it s.prevNoUsada s.restante).noUsada o f h := by
    rw [capacidadDisponible, if_neg (by omega)]
  have hsum : asignadoOferta (s.asigs ++ new) o f h =
      asignadoOferta s.asigs o f h + asignadoOferta new o f h :=
    asignadoOferta_append _ _ _ _ _
  have hold := (hs.2 o f h).1
  have holdnn := (hs.2 o f h).2
  show asignadoOferta (s.asigs ++ (procesarRonda md s.it s.prevNoUsada s.restante).asigs)
      o f h + capacidadDisponible md (s.it + 1)
        (procesarRonda md s.it s.prevNoUsada s.restante).noUsada o f h ≤ CO md o f h ∧
    0 ≤ capacidadDisponible md (s.it + 1)
      (procesarRonda md s.it s.prevNoUsada s.restante).noUsada o f h
  rw [hasig, hcd, hsum]
  rcases hR.porOferta hnd hov o f h with hcase | hcase
  · have hnoU : (procesarRonda md s.it s.prevNoUsada s.restante).noUsada o f h = 0 := by
      rw [hcase.2]
    rw [hcase.1, hnoU]
    constructor
    · linarith
    · exact le_refl 0
  · have hle := hcase.2.1
    have hpos := hcase.1
    rw [hcase.2.2]
    constructor
    · linarith
    · linarith

/-! ## The per-round audit-table invariant of the loop -/

theorem capEntrada_append (md : ModelData) (rondas : List Ronda) (r : Ronda)
    (j : Nat) (hj : j ≤ rondas.length) (o : String) (f h : Nat) :
    capEntrada md (rondas ++ [r]) j o f h = capEntrada md rondas j o f h := by
  cases j with
  | zero => rfl
  | succ j' =>
    show (Option.map (fun rd => rd.noUsada o f h) ((rondas ++ [r])[j']?)).getD 0 =
      (Option.map (fun rd => rd.noUsada o f h) (rondas[j']?)).getD 0
    rw [List.getElem?_append_left (by omega)]

theorem iterar_rondas (md : ModelData) (hnd : (slots md).Nodup)
    (hov : (ofertasValidas md).Nodup) (n : Nat) (st st' : LoopSt)
    (hit : iterar md n st = some st') (hP : InvRon md st) : InvRon md st' := by
  refine iterar_inv md (InvRon md) ?_ n st st' hit hP
  intro s hs
  obtain ⟨new, hR⟩ := procesarRonda_spec md s.it s.prevNoUsada s.restante
  set w := procesarRonda md s.it s.prevNoUsada s.restante with hw
  have hasig : w.asigs = new := by
    have := hR.asigs_eq
    simpa using this
  -- the capacity the executed round read, expressed through the new table list
  have hcapj : ∀ o f h,
      capEntrada md (s.rondas ++ [⟨s.it, w.noUsada, w.asigs, w.total⟩])
        s.rondas.length o f h =
      capacidadDisponible md s.it s.prevNoUsada o f h := by
    intro o f h
    cases hlen : s.rondas.length with
    | zero =>
      have hit1 : s.it = 1 := by rw [hs.it_eq, hlen]
      show CO md o f h = capacidadDisponible md s.it s.prevNoUsada o f h
      rw [capacidadDisponible, if_pos hit1]
    | succ len' =>
      have hne : s.rondas ≠ [] := by
        intro hx
        rw [hx] at hlen
        simp at hlen
      obtain ⟨lastRd, hgl⟩ := Option.isSome_iff_exists.mp
        (List.getLast?_isSome.mpr hne)
      have hget : s.rondas[len']? = some lastRd := by
        have := List.getLast?_eq_getElem? s.rondas
        rw [hgl, hlen] at this
        simpa using this.symm
      have hprev := hs.prev_link lastRd hgl
      show (Option.map (fun rd => rd.noUsada o f h)
        ((s.rondas ++ [⟨s.it, w.noUsada, w.asigs, w.total⟩])[len']?)).getD 0 =
        capacidadDisponible md s.it s.prevNoUsada o f h
      rw [List.getElem?_append_left (by omega), hget]
      have hit2 : s.it ≠ 1 := by rw [hs.it_eq, hlen]; omega
      rw [capacidadDisponible, if_neg hit2, hprev]
      rfl
  have h1 : s.it + 1 = (s.rondas ++ [(⟨s.it, w.noUsada, w.asigs, w.total⟩ : Ronda)]).length + 1 := by
    rw [List.length_append, hs.it_eq]
    simp
  have h2 : ∀ rd, (s.rondas ++ [(⟨s.it, w.noUsada, w.asigs, w.total⟩ : Ronda)]).getLast? =
      some rd → w.noUsada = rd.noUsada := by
    intro rd hlast
    rw [List.getLast?_concat] at hlast
    injection hlast with hx
    rw [← hx]
  have h3 : ∀ o f h, 0 ≤ capacidadDisponible md (s.it + 1) w.noUsada o f h := by
    intro o f h
    have hcd : capacidadDisponible md (s.it + 1) w.noUsada o f h = w.noUsada o f h := by
      rw [capacidadDisponible,
        if_neg (by intro hx; rw [hs.it_eq] at hx; omega)]
    rw [hcd]
    rcases hR.porOferta hnd hov o f h with hcase | hcase
    · rw [hcase.2]
    · rw [hcase.2.2]
      linarith [hcase.2.1]
  have h4 : ∀ j rd, (s.rondas ++ [(⟨s.it, w.noUsada, w.asigs, w.total⟩ : Ronda)])[j]? =
      some rd → ∀ o f h,
      (asignadoOferta rd.asigs o f h = 0 → rd.noUsada o f h = 0) ∧
      (0 < asignadoOferta rd.asigs o f h →
        rd.noUsada o f h =
          capEntrada md (s.rondas ++ [(⟨s.it, w.noUsada, w.asigs, w.total⟩ : Ronda)]) j o f h -
            asignadoOferta rd.asigs o f h) ∧
      0 ≤ rd.noUsada o f h ∧
      rd.noUsada o f h ≤
        capEntrada md (s.rondas ++ [(⟨s.it, w.noUsada, w.asigs, w.total⟩ : Ronda)]) j o f h := by
    intro j rd hget o f h
    rcases Nat.lt_trichotomy j s.rondas.length with hj | hj | hj
    · -- an old round: nothing about it changed
      rw [List.getElem?_append_left hj] at hget
      have hold := hs.por_ronda j rd hget o f h
      rw [capEntrada_append md s.rondas _ j (le_of_lt hj) o f h]
      exact hold
    · -- the round just executed
      subst hj
      rw [List.getElem?_concat_length] at hget
      injection hget with hx
      subst hx
      show (asignadoOferta w.asigs o f h = 0 → w.noUsada o f h = 0) ∧
        (0 < asignadoOferta w.asigs o f h →
          w.noUsada o f h =
            capEntrada md (s.rondas ++ [(⟨s.it, w.noUsada, w.asigs, w.total⟩ : Ronda)])
              s.rondas.length o f h - asignadoOferta w.asigs o f h) ∧
        0 ≤ w.noUsada o f h ∧
        w.noUsada o f h ≤
          capEntrada md (s.rondas ++ [(⟨s.it, w.noUsada, w.asigs, w.total⟩ : Ronda)])
            s.rondas.length o f h
      rw [hcapj o f h, hasig]
      rcases hR.porOferta hnd hov o f h with hcase | hcase
      · have hnoU : w.noUsada o f h = 0 := by rw [hcase.2]
        refine ⟨fun _ => hnoU, ?_, by rw [hnoU], ?_⟩
        · intro hpos
          rw [hcase.1] at hpos
          exact absurd hpos (lt_irrefl 0)
        · rw [hnoU]
          exact hs.cap_nn o f h
      · refine ⟨?_, ?_, ?_, ?_⟩
        · intro h0
          exact absurd h0 (ne_of_gt hcase.1)
        · intro _
          rw [hcase.2.2]
        · rw [hcase.2.2]
          linarith [hcase.2.1]
        · rw [hcase.2.2]
          linarith [hcase.1]
    · -- beyond the new list: contradiction
      exfalso
      have hnone : (s.rondas ++ [(⟨s.it, w.noUsada, w.asigs, w.total⟩ : Ronda)])[j]? = none := by
        refine List.getElem?_eq_none ?_
        rw [List.length_append]
        simpa using hj
      rw [hnone] at hget
      cases hget
  exact { it_eq := h1, prev_link := h2, cap_nn := h3, por_ronda := h4 }

/-! ## The candidate order is price-ascending with ties in offer-code order -/

theorem precioLe_refl (a : Option ℚ) : precioLe a a := by
  cases a with
  | none => trivial
  | some x => exact le_refl x

theorem precioLe_total (a b : Option ℚ) : precioLe a b ∨ precioLe b a := by
  cases a with
  | none =>
    cases b with
    | none => exact Or.inl trivial
    | some y => exact Or.inr trivial
  | some x =>
    cases b with
    | none => exact Or.inl trivial
    | some y => exact le_total x y

theorem precioLe_none (a : Option ℚ) : precioLe a none := by
  cases a <;> trivial

theorem precioLe_trans {a b c : Option ℚ} (hab : precioLe a b) (hbc : precioLe b c) :
    precioLe a c := by
  cases c with
  | none => exact precioLe_none a
  | some z =>
    cases b with
    | none => exact absurd hbc (fun hx => hx)
    | some y =>
      cases a with
      | none => exact absurd hab (fun hx => hx)
      | some x => exact le_trans hab hbc

theorem precioLe_antisymm {a b : Option ℚ} (hab : precioLe a b) (hba : precioLe b a) :
    a = b := by
  cases a with
  | none =>
    cases b with
    | none => rfl
    | some y => exact absurd hab (fun hx => hx)
  | some x =>
    cases b with
    | none => exact absurd hba (fun hx => hx)
    | some y =>
      rw [le_antisymm hab hba]

theorem candLex_precioLe {c c' : Cand} (hl : candLex c c') : precioLe c.precio c'.precio := by
  rcases hl with hl | hl
  · rcases precioLe_total c.precio c'.precio with hx | hx
    · exact hx
    · exact absurd hx hl
  · rw [hl.1]
    exact precioLe_refl _

theorem orderedInsert_lex (c : Cand) (l : List Cand)
    (hl : l.Pairwise candLex)
    (hc : ∀ c' ∈ l, strMenor c.oferta c'.oferta = true) :
    (List.orderedInsert (fun a b => precioLe a.precio b.precio) c l).Pairwise candLex := by
  induction l with
  | nil => simp
  | cons y ys ih =>
    rw [List.orderedInsert]
    by_cases hcy : precioLe c.precio y.precio
    · rw [if_pos hcy]
      refine List.pairwise_cons.mpr ⟨?_, hl⟩
      intro z hz
      have hyz : ∀ w ∈ ys, precioLe y.precio w.precio := fun w hw =>
        candLex_precioLe ((List.pairwise_cons.mp hl).1 w hw)
      have hcz : precioLe c.precio z.precio := by
        rcases List.mem_cons.mp hz with rfl | hzys
        · exact hcy
        · exact precioLe_trans hcy (hyz z hzys)
      by_cases hzc : precioLe z.precio c.precio
      · right
        exact ⟨precioLe_antisymm hcz hzc, hc z hz⟩
      · left
        exact hzc
    · rw [if_neg hcy]
      refine List.pairwise_cons.mpr ⟨?_, ?_⟩
      · intro z hz
        rcases (List.mem_orderedInsert _).mp hz with rfl | hzys
        · exact Or.inl hcy
        · exact (List.pairwise_cons.mp hl).1 z hzys
      · exact ih (List.pairwise_cons.mp hl).2 fun c' hc' => hc c' (by simp [hc'])

theorem insertionSort_lex (l : List Cand)
    (hl : l.Pairwise fun c c' => strMenor c.oferta c'.oferta = true) :
    (ordenar l).Pairwise candLex := by
  induction l with
  | nil => simp [ordenar, List.insertionSort]
  | cons c cs ih =>
    have hcs := (List.pairwise_cons.mp hl).2
    have hhd := (List.pairwise_cons.mp hl).1
    show (List.insertionSort _ (c :: cs)).Pairwise candLex
    rw [List.insertionSort]
    refine orderedInsert_lex c _ (ih hcs) ?_
    intro c' hc'
    exact hhd c' ((ordenar_perm cs).mem_iff.mp hc')

theorem recolectar_lex (md : ModelData) (it : Nat)
    (prev : String → Nat → Nat → ℚ) (f h : Nat)
    (hsort : md.ofertas.Pairwise fun a b => strMenor a b = true) :
    (ordenar (recolectar md it prev f h)).Pairwise candLex := by
  refine insertionSort_lex _ ?_
  unfold recolectar
  refine List.Pairwise.map _ (fun a b hab => hab) ?_
  refine List.Pairwise.filter _ ?_
  unfold ofertasValidas
  exact List.Pairwise.filter _ hsort

/-! ## The results depend only on the data the allocator reads -/

theorem list_any_congr {α : Type} (l : List α) (f g : α → Bool)
    (hfg : ∀ x ∈ l, f x = g x) : l.any f = l.any g := by
  induction l with
  | nil => rfl
  | cons x xs ih =>
    simp only [List.any_cons]
    rw [hfg x (by simp), ih fun y hy => hfg y (by simp [hy])]

theorem list_foldl_congr {α β : Type} (l : List α) (f g : β → α → β)
    (hfg : ∀ b, ∀ x ∈ l, f b x = g b x) : ∀ b, l.foldl f b = l.foldl g b := by
  induction l with
  | nil => intro b; rfl
  | cons x xs ih =>
    intro b
    rw [List.foldl_cons, List.foldl_cons, hfg b x (by simp)]
    exact ih (fun b' y hy => hfg b' y (by simp [hy])) _

/-- Hypotheses: the two models agree on everything the allocator reads. -/
structure MismosDatos (md₁ md₂ : ModelData) : Prop where
  ho : md₁.ofertas = md₂.ofertas
  hf : md₁.fechas = md₂.fechas
  hh : md₁.horas = md₂.horas
  hq : ∀ o ∈ md₁.ofertas, ∀ f ∈ md₁.fechas, ∀ h ∈ md₁.horas,
    md₁.quote o f h = md₂.quote o f h
  hd : ∀ f ∈ md₁.fechas, ∀ h ∈ md₁.horas, md₁.D f h = md₂.D f h

theorem ofertasValidas_congr {md₁ md₂ : ModelData} (hmd : MismosDatos md₁ md₂) :
    ofertasValidas md₁ = ofertasValidas md₂ := by
  unfold ofertasValidas
  rw [← hmd.ho]
  refine List.filter_congr fun o ho => ?_
  rw [← hmd.hf]
  refine list_any_congr _ _ _ fun f hf => ?_
  rw [← hmd.hh]
  refine list_any_congr _ _ _ fun h hh => ?_
  rw [hmd.hq o ho f hf h hh]

theorem slots_congr {md₁ md₂ : ModelData} (hmd : MismosDatos md₁ md₂) :
    slots md₁ = slots md₂ := by
  unfold slots
  rw [hmd.hf, hmd.hh]

theorem capacidadDisponible_congr {md₁ md₂ : ModelData} (hmd : MismosDatos md₁ md₂)
    {o : String} {f h : Nat} (ho : o ∈ md₁.ofertas) (hf : f ∈ md₁.fechas)
    (hh : h ∈ md₁.horas) (it : Nat) (prev : String → Nat → Nat → ℚ) :
    capacidadDisponible md₁ it prev o f h = capacidadDisponible md₂ it prev o f h := by
  unfold capacidadDisponible CO
  rw [hmd.hq o ho f hf h hh]

theorem recolectar_congr {md₁ md₂ : ModelData} (hmd : MismosDatos md₁ md₂)
    {f h : Nat} (hf : f ∈ md₁.fechas) (hh : h ∈ md₁.horas)
    (it : Nat) (prev : String → Nat → Nat → ℚ) :
    recolectar md₁ it prev f h = recolectar md₂ it prev f h := by
  unfold recolectar
  rw [← ofertasValidas_congr hmd]
  have hmem : ∀ o ∈ ofertasValidas md₁, o ∈ md₁.ofertas := by
    intro o ho
    exact (List.mem_filter.mp ho).1
  rw [List.filter_congr fun o ho => by
    rw [capacidadDisponible_congr hmd (hmem o ho) hf hh it prev]]
  refine List.map_congr_left fun o ho => ?_
  have ho' : o ∈ md₁.ofertas := hmem o (List.mem_filter.mp ho).1
  rw [show PO md₁ o f h = PO md₂ o f h from by
      unfold PO; rw [hmd.hq o ho' f hf h hh],
    capacidadDisponible_congr hmd ho' hf hh it prev]

theorem procesarSlot_congr {md₁ md₂ : ModelData} (hmd : MismosDatos md₁ md₂)
    {fh : Nat × Nat} (hfh : fh ∈ slots md₁) (it : Nat)
    (prev : String → Nat → Nat → ℚ) (st : WalkSt) :
    procesarSlot md₁ it prev st fh = procesarSlot md₂ it prev st fh := by
  have hf : fh.1 ∈ md₁.fechas ∧ fh.2 ∈ md₁.horas := by
    obtain ⟨a, b⟩ := fh
    unfold slots at hfh
    exact List.mem_product.mp hfh
  unfold procesarSlot
  rw [recolectar_congr hmd hf.1 hf.2 it prev]

theorem procesarRonda_congr {md₁ md₂ : ModelData} (hmd : MismosDatos md₁ md₂)
    (it : Nat) (prev : String → Nat → Nat → ℚ) (r0 : Nat → Nat → ℚ) :
    procesarRonda md₁ it prev r0 = procesarRonda md₂ it prev r0 := by
  unfold procesarRonda
  rw [← slots_congr hmd]
  exact list_foldl_congr _ _ _
    (fun st fh hfh => procesarSlot_congr hmd hfh it prev st) _

theorem totalRestante_congr {md₁ md₂ : ModelData} (hmd : MismosDatos md₁ md₂)
    (r : Nat → Nat → ℚ) : totalRestante md₁ r = totalRestante md₂ r := by
  unfold totalRestante
  rw [slots_congr hmd]

theorem iterar_congr {md₁ md₂ : ModelData} (hmd : MismosDatos md₁ md₂) :
    ∀ (n : Nat) (st : LoopSt), iterar md₁ n st = iterar md₂ n st := by
  intro n
  induction n with
  | zero => intro st; rfl
  | succ n ih =>
    intro st
    rw [iterar_succ, iterar_succ, totalRestante_congr hmd,
      procesarRonda_congr hmd st.it st.prevNoUsada st.restante, ih]

theorem restanteInicial_congr {md₁ md₂ : ModelData} (hmd : MismosDatos md₁ md₂) :
    restanteInicial md₁ = restanteInicial md₂ := by
  funext f h
  unfold restanteInicial
  rw [hmd.hf, hmd.hh]
  by_cases hfh : f ∈ md₂.fechas ∧ h ∈ md₂.horas
  · rw [if_pos hfh, if_pos hfh]
    exact hmd.hd f (by rw [hmd.hf]; exact hfh.1) h (by rw [hmd.hh]; exact hfh.2)
  · rw [if_neg hfh, if_neg hfh]

theorem estadoInicial_congr {md₁ md₂ : ModelData} (hmd : MismosDatos md₁ md₂) :
    estadoInicial md₁ = estadoInicial md₂ := by
  unfold estadoInicial
  rw [restanteInicial_congr hmd, totalRestante_congr hmd]

/-- `extraer_resultados` reads only the index lists, the demand on the
model's slots and the quotes on the model's index sets: two models that
agree there — whatever their solver-variable values or out-of-range
data — produce identical results. -/
theorem extraer_congr {md₁ md₂ : ModelData} (hmd : MismosDatos md₁ md₂) :
    extraer_resultados md₁ = extraer_resultados md₂ := by
  unfold extraer_resultados
  rw [ofertasValidas_congr hmd, iterar_congr hmd, estadoInicial_congr hmd]

/-! ## Evaluation of the concrete instances -/

theorem str_AB : (("A" : String) = "B") = False := by simp

theorem str_BA : (("B" : String) = "A") = False := by simp

theorem extraer_some_getD (md : ModelData) (hv : ofertasValidas md ≠ []) :
    extraer_resultados md = some ((extraer_resultados md).getD resVacio) := by
  obtain ⟨st', _, heq⟩ := extraer_spec md hv
  rw [heq]
  rfl

theorem extraer_mdA : extraer_resultados mdA = some resA :=
  extraer_some_getD mdA (by decide)

theorem extraer_mdC3 : extraer_resultados mdC3 = some resC3 :=
  extraer_some_getD mdC3 (by decide)

set_option maxHeartbeats 1000000 in
theorem resC3_asigs : resC3.asigs = [⟨"A", 1, 1, 1, 50⟩] := by
  norm_num [resC3, resVacio, extraer_resultados, iterar, estadoInicial, procesarRonda,
    procesarSlot, asignarOfertas, recolectar, ordenar, capacidadDisponible, CO, PO,
    ofertasValidas, slots, restanteInicial, totalRestante, updSlot, updCap, siguiente,
    redondear, Eps, List.insertionSort, List.orderedInsert, precioLe, min_def, mdA,
    mdC3, List.product, str_AB, str_BA, decide_eq_true_eq]
  all_goals simp [updCap, updSlot]

set_option maxHeartbeats 1000000 in
theorem resC3_noUsada : resC3.rondas.map (fun rd => rd.noUsada "B" 1 1) = [0] := by
  norm_num [resC3, resVacio, extraer_resultados, iterar, estadoInicial, procesarRonda,
    procesarSlot, asignarOfertas, recolectar, ordenar, capacidadDisponible, CO, PO,
    ofertasValidas, slots, restanteInicial, totalRestante, updSlot, updCap, siguiente,
    redondear, Eps, List.insertionSort, List.orderedInsert, precioLe, min_def, mdA,
    mdC3, List.product, str_AB, str_BA, decide_eq_true_eq]
  all_goals simp [updCap, updSlot]

theorem resC3_rondas_ne : resC3.rondas ≠ [] := by
  intro hx
  have := resC3_noUsada
  rw [hx] at this
  simp at this

theorem getElem0_headD {α : Type} (l : List α) (d : α) (hne : l ≠ []) :
    l[0]? = some (l.headD d) := by
  cases l with
  | nil => exact absurd rfl hne
  | cons a t => simp

theorem resC3_ronda0 : resC3.rondas[0]? = some rdC3 :=
  getElem0_headD _ _ resC3_rondas_ne

theorem capEntrada_mdC3_0 : capEntrada mdC3 resC3.rondas 0 "B" 1 1 = 60 := by
  show CO mdC3 "B" 1 1 = 60
  norm_num [CO, mdC3, mdA, str_BA]

theorem capEntrada_mdC3_1 : capEntrada mdC3 resC3.rondas 1 "B" 1 1 = 0 := by
  have hmap := congrArg (fun l => l[0]?) resC3_noUsada
  simp only [List.getElem?_map] at hmap
  show (resC3.rondas[0]?.map fun rd => rd.noUsada "B" 1 1).getD 0 = 0
  rw [hmap]
  rfl

theorem asignadoOferta_resC3_B : asignadoOferta resC3.asigs "B" 1 1 = 0 := by
  rw [resC3_asigs]
  refine asignadoOferta_eq_zero _ _ _ _ fun a ha => ?_
  simp only [List.mem_singleton] at ha
  subst ha
  intro hx
  exact absurd hx.1 (by simp)

theorem promedioC2_A : precioPromedioOferta rowsC2 "A" = some 54 := by
  norm_num [precioPromedioOferta, rowsC2, List.filter, decide_eq_true_eq, str_AB, str_BA]
  all_goals simp [updCap, updSlot]

theorem promedioC2_B : precioPromedioOferta rowsC2 "B" = some (9 / 2) := by
  norm_num [precioPromedioOferta, rowsC2, List.filter, decide_eq_true_eq, str_AB, str_BA]
  all_goals simp [updCap, updSlot]

theorem ordenC2 : List.insertionSort
    (fun a b => precioLe (precioPromedioOferta rowsC2 a) (precioPromedioOferta rowsC2 b))
    (ordenarCodigos (rowsC2.map OfertaRow.codigo)) = ["B", "A"] := by
  rw [show ordenarCodigos (rowsC2.map OfertaRow.codigo) = ["A", "B"] from by decide]
  rw [List.insertionSort, List.insertionSort, List.insertionSort,
    List.orderedInsert, List.orderedInsert]
  have hc : ¬ precioLe (precioPromedioOferta rowsC2 "A") (precioPromedioOferta rowsC2 "B") := by
    intro hx
    rw [promedioC2_A, promedioC2_B] at hx
    have hle : (54 : ℚ) ≤ 9 / 2 := hx
    norm_num at hle
  rw [if_neg hc, List.orderedInsert]

theorem prioridadC2_A : prioridadOferta rowsC2 "A" = 2 := by
  unfold prioridadOferta
  rw [ordenC2]
  decide

theorem prioridadC2_B : prioridadOferta rowsC2 "B" = 1 := by
  unfold prioridadOferta
  rw [ordenC2]
  decide

set_option maxHeartbeats 4000000 in
theorem resC2_asigs : resC2.asigs = [⟨"A", 1, 1, 1, 25⟩, ⟨"B", 1, 1, 1, 5⟩] := by
  norm_num [resC2, resVacio, mdC2, construir_modelo, rowsC2, ddfC2, ordenarCodigos,
    ordenarNats, filaValida, extraer_resultados, iterar, estadoInicial, procesarRonda,
    procesarSlot, asignarOfertas, recolectar, ordenar, capacidadDisponible, CO, PO,
    ofertasValidas, slots, restanteInicial, totalRestante, updSlot, updCap, siguiente,
    redondear, Eps, List.insertionSort, List.orderedInsert, precioLe, strMenor, lexMenor,
    min_def, List.product, str_AB, str_BA, decide_eq_true_eq, List.dedup, List.filter,
    List.getLast?]
  all_goals simp [updCap, updSlot]

set_option maxHeartbeats 1000000 in
theorem po_mdC2 : PO mdC2 "A" 1 1 = some 8 ∧ PO mdC2 "B" 1 1 = some 8 := by
  norm_num [PO, mdC2, construir_modelo, rowsC2, ddfC2, filaValida, List.filter,
    List.getLast?, str_AB, str_BA, decide_eq_true_eq]

set_option maxHeartbeats 1000000 in
theorem ofertasValidas_mdC2 : ofertasValidas mdC2 ≠ [] := by
  norm_num [ofertasValidas, mdC2, construir_modelo, rowsC2, ddfC2, ordenarCodigos,
    ordenarNats, filaValida, List.filter, List.getLast?, List.dedup,
    List.insertionSort, List.orderedInsert, strMenor, lexMenor, slots,
    str_AB, str_BA, decide_eq_true_eq]
  all_goals simp [updCap, updSlot]

theorem extraer_mdC2 : extraer_resultados mdC2 = some resC2 :=
  extraer_some_getD mdC2 ofertasValidas_mdC2

theorem promedioD_A : precioPromedioOferta rowsD "A" = some 8 := by
  norm_num [precioPromedioOferta, rowsD, List.filter, decide_eq_true_eq, str_AB, str_BA]
  all_goals simp [updCap, updSlot]

theorem ordenD : List.insertionSort
    (fun a b => precioLe (precioPromedioOferta rowsD a) (precioPromedioOferta rowsD b))
    (ordenarCodigos (rowsD.map OfertaRow.codigo)) = ["A", "B"] := by
  rw [show ordenarCodigos (rowsD.map OfertaRow.codigo) = ["A", "B"] from by decide]
  rw [List.insertionSort, List.insertionSort, List.insertionSort,
    List.orderedInsert, List.orderedInsert]
  have hc : precioLe (precioPromedioOferta rowsD "A") (precioPromedioOferta rowsD "B") := by
    rw [promedioD_A, show precioPromedioOferta rowsD "B" = some 8 from by
      norm_num [precioPromedioOferta, rowsD, List.filter, decide_eq_true_eq,
        str_AB, str_BA]
      all_goals simp]
    exact le_refl (8 : ℚ)
  rw [if_pos hc]

theorem prioridadD_A : prioridadOferta rowsD "A" = 1 := by
  unfold prioridadOferta
  rw [ordenD]
  decide

theorem prioridadD_B : prioridadOferta rowsD "B" = 2 := by
  unfold prioridadOferta
  rw [ordenD]
  decide

set_option maxHeartbeats 4000000 in
theorem resD_asigs : resD.asigs = [⟨"A", 1, 1, 1, 25⟩, ⟨"B", 1, 1, 1, 15⟩] := by
  norm_num [resD, resVacio, mdD, construir_modelo, rowsD, ddfD, ordenarCodigos,
    ordenarNats, filaValida, extraer_resultados, iterar, estadoInicial, procesarRonda,
    procesarSlot, asignarOfertas, recolectar, ordenar, capacidadDisponible, CO, PO,
    ofertasValidas, slots, restanteInicial, totalRestante, updSlot, updCap, siguiente,
    redondear, Eps, List.insertionSort, List.orderedInsert, precioLe, strMenor, lexMenor,
    min_def, List.product, str_AB, str_BA, decide_eq_true_eq, List.dedup, List.filter,
    List.getLast?]
  all_goals simp [updCap, updSlot]

set_option maxHeartbeats 1000000 in
theorem ofertasValidas_mdD : ofertasValidas mdD ≠ [] := by
  norm_num [ofertasValidas, mdD, construir_modelo, rowsD, ddfD, ordenarCodigos,
    ordenarNats, filaValida, List.filter, List.getLast?, List.dedup,
    List.insertionSort, List.orderedInsert, strMenor, lexMenor, slots,
    str_AB, str_BA, decide_eq_true_eq]
  all_goals simp [updCap, updSlot]

theorem extraer_mdD : extraer_resultados mdD = some resD :=
  extraer_some_getD mdD ofertasValidas_mdD

/-! ## The claims -/

/-- C1: for every run of `extraer_resultados` and every (date, hour)
slot of the model, the sum of the quantities assigned over all offers
and all rounds plus the unmet quantity reported in the
`DEMANDA_FALTANTE` table equals the original demand of the slot to
within 1e-6, and the reported unmet quantity is never negative
(demand being nonnegative, as the data model requires). -/
theorem c1_balance (md : ModelData)
    (hD : ∀ f ∈ md.fechas, ∀ h ∈ md.horas, 0 ≤ md.D f h)
    (res : Resultados) (hres : extraer_resultados md = some res)
    (f h : Nat) (hf : f ∈ md.fechas) (hh : h ∈ md.horas)
    (h1 : 1 ≤ h) (h24 : h ≤ 24) :
    |asignadoEnSlot res.asigs f h + res.faltante f h - md.D f h| < Eps ∧
      0 ≤ res.faltante f h := by
  obtain ⟨st', h2, _, hasg, hfal⟩ := extraer_some_elim hres
  have hbal0 : ∀ f' h', (estadoInicial md).restante f' h' =
      restanteInicial md f' h' - asignadoEnSlot (estadoInicial md).asigs f' h' := by
    intro f' h'
    show restanteInicial md f' h' = restanteInicial md f' h' - asignadoEnSlot [] f' h'
    rw [asignadoEnSlot_nil]
    ring
  have hbal := iterar_balance md 2 (estadoInicial md) st' h2 hbal0
  have hnn0 : ∀ f' h', 0 ≤ (estadoInicial md).restante f' h' := by
    intro f' h'
    show 0 ≤ restanteInicial md f' h'
    unfold restanteInicial
    by_cases hmem : f' ∈ md.fechas ∧ h' ∈ md.horas
    · rw [if_pos hmem]
      exact hD f' hmem.1 h' hmem.2
    · rw [if_neg hmem]
  have hnn := iterar_nonneg md 2 (estadoInicial md) st' h2 hnn0
  have hini : restanteInicial md f h = md.D f h := by
    unfold restanteInicial
    rw [if_pos ⟨hf, hh⟩]
  have hrst : st'.restante f h = md.D f h - asignadoEnSlot res.asigs f h := by
    rw [hbal f h, hini, hasg]
  have hfv : res.faltante f h = redondear (st'.restante f h) := by rw [hfal]
  have hv0 : 0 ≤ st'.restante f h := hnn f h
  constructor
  · rw [hfv, redondear]
    by_cases habs : |st'.restante f h| < Eps
    · rw [if_pos habs]
      rw [hrst] at habs
      have heq : asignadoEnSlot res.asigs f h + 0 - md.D f h =
          -(md.D f h - asignadoEnSlot res.asigs f h) := by ring
      rw [heq, abs_neg]
      exact habs
    · rw [if_neg habs, hrst]
      have : asignadoEnSlot res.asigs f h +
          (md.D f h - asignadoEnSlot res.asigs f h) - md.D f h = 0 := by ring
      rw [this, abs_zero]
      exact EpsPos
  · rw [hfv, redondear]
    by_cases habs : |st'.restante f h| < Eps
    · rw [if_pos habs]
    · rw [if_neg habs]
      exact hv0

/-- C1 witness: the balance and nonnegativity at slot (1, 1) of the
concrete run on `mdA`. -/
theorem c1_witness :
    (∀ f ∈ mdA.fechas, ∀ h ∈ mdA.horas, 0 ≤ mdA.D f h) ∧
      (|asignadoEnSlot resA.asigs 1 1 + resA.faltante 1 1 - mdA.D 1 1| < Eps ∧
        0 ≤ resA.faltante 1 1) :=
  ⟨by intro f hf h hh; fin_cases hf; fin_cases hh; norm_num [mdA],
    c1_balance mdA
      (by intro f hf h hh; fin_cases hf; fin_cases hh; norm_num [mdA])
      resA extraer_mdA 1 1 (by decide) (by decide) (by decide) (by decide)⟩

/-- C2 counterexample: the iterative allocator does not break price
ties by offer priority.  On `rowsC2`/`ddfC2`, offers "A" and "B" both
quote price 8 at slot (1, 1); the priority ranking of
`construir_modelo` gives "B" priority 1 and "A" priority 2, so the
claimed order would serve "B" fully (25) before "A" (5); the code's
stable sort keeps the lexicographic candidate order and serves "A"
fully (25) before "B" (5). -/
theorem c2_counterexample :
    prioridadOferta rowsC2 "B" = 1 ∧ prioridadOferta rowsC2 "A" = 2 ∧
      PO mdC2 "A" 1 1 = some 8 ∧ PO mdC2 "B" 1 1 = some 8 ∧
      extraer_resultados mdC2 = some resC2 ∧
      resC2.asigs = [⟨"A", 1, 1, 1, 25⟩, ⟨"B", 1, 1, 1, 5⟩] :=
  ⟨prioridadC2_B, prioridadC2_A, po_mdC2.1, po_mdC2.2, extraer_mdC2, resC2_asigs⟩

/-- C2 (amended): in every round and at every slot the candidates are
walked in unit-price-ascending order with price ties broken by the
offer-code order of the (sorted, duplicate-free) offer list — i.e.
lexicographically by offer id; the offer priority is not consulted.
In particular Scenario D holds: with demand 40 and equal price 8,
"A" (priority 1, capacity 25) is fully assigned 25 before "B"
(priority 2) receives 15. -/
theorem c2_amended :
    (∀ (md : ModelData), (md.ofertas.Pairwise fun a b => strMenor a b = true) →
      ∀ (it : Nat) (prev : String → Nat → Nat → ℚ) (f h : Nat),
        (ordenar (recolectar md it prev f h)).Pairwise candLex) ∧
      prioridadOferta rowsD "A" = 1 ∧ prioridadOferta rowsD "B" = 2 ∧
      extraer_resultados mdD = some resD ∧
      resD.asigs = [⟨"A", 1, 1, 1, 25⟩, ⟨"B", 1, 1, 1, 15⟩] :=
  ⟨fun md hs it prev f h => recolectar_lex md it prev f h hs,
    prioridadD_A, prioridadD_B, extraer_mdD, resD_asigs⟩

/-- C2 witness: the sorted candidate list of `mdA` at slot (1, 1) in
round 1 is in the deterministic (price, offer-code) order. -/
theorem c2_witness :
    (mdA.ofertas.Pairwise fun a b => strMenor a b = true) ∧
      (ordenar (recolectar mdA 1 (fun _ _ _ => 0) 1 1)).Pairwise candLex :=
  ⟨by decide, c2_amended.1 mdA (by decide) 1 (fun _ _ _ => 0) 1 1⟩

/-- C3 counterexample: on `mdC3` (demand 50), offer "B" is assigned
nothing in round 1, yet the capacity available to it at round 2 is 0,
not `capacity at round 1 − assigned = 60 − 0`: the claimed equality
fails for offers the walk never touched. -/
theorem c3_counterexample :
    extraer_resultados mdC3 = some resC3 ∧
      asignadoOferta resC3.asigs "B" 1 1 = 0 ∧
      capEntrada mdC3 resC3.rondas 0 "B" 1 1 = 60 ∧
      capEntrada mdC3 resC3.rondas 1 "B" 1 1 = 0 ∧
      capEntrada mdC3 resC3.rondas 0 "B" 1 1 - asignadoOferta resC3.asigs "B" 1 1 ≠
        capEntrada mdC3 resC3.rondas 1 "B" 1 1 := by
  refine ⟨extraer_mdC3, asignadoOferta_resC3_B, capEntrada_mdC3_0,
    capEntrada_mdC3_1, ?_⟩
  rw [asignadoOferta_resC3_B, capEntrada_mdC3_0, capEntrada_mdC3_1]
  norm_num

/-- C3 (amended): for every offer and slot, the capacity available at
round r+1 equals the capacity available at round r minus the quantity
assigned there **when the round assigned to that offer and slot**, and
is reset to 0 when it did not; in all cases it is nonnegative and never
exceeds the capacity available at round r (monotone non-increasing). -/
theorem c3_amended (md : ModelData) (hond : md.ofertas.Nodup)
    (hfnd : md.fechas.Nodup) (hhnd : md.horas.Nodup)
    (hq : ∀ o f h q, md.quote o f h = some q → 0 ≤ q.cantidad)
    (res : Resultados) (hres : extraer_resultados md = some res)
    (j : Nat) (rd : Ronda) (hj : res.rondas[j]? = some rd) (o : String) (f h : Nat) :
    (asignadoOferta rd.asigs o f h = 0 → rd.noUsada o f h = 0) ∧
      (0 < asignadoOferta rd.asigs o f h →
        rd.noUsada o f h = capEntrada md res.rondas j o f h -
          asignadoOferta rd.asigs o f h) ∧
      0 ≤ rd.noUsada o f h ∧
      rd.noUsada o f h ≤ capEntrada md res.rondas j o f h := by
  obtain ⟨st', h2, hrnd, _, _⟩ := extraer_some_elim hres
  have hP0 : InvRon md (estadoInicial md) := by
    refine ⟨rfl, ?_, ?_, ?_⟩
    · intro rd' hx
      cases hx
    · intro o' f' h'
      show 0 ≤ capacidadDisponible md 1 (fun _ _ _ => 0) o' f' h'
      rw [capacidadDisponible, if_pos rfl]
      exact CO_nonneg md hq o' f' h'
    · intro j' rd' hx
      cases hx
  have hinv := iterar_rondas md (List.Nodup.product hfnd hhnd)
    (List.Nodup.filter _ hond) 2 (estadoInicial md) st' h2 hP0
  rw [hrnd] at hj ⊢
  exact hinv.por_ronda j rd hj o f h

/-- C3 witness: the amended relation at round 1 of the run on `mdC3`
for offer "B" at slot (1, 1). -/
theorem c3_witness :
    mdC3.ofertas.Nodup ∧
      (0 ≤ rdC3.noUsada "B" 1 1 ∧
        rdC3.noUsada "B" 1 1 ≤ capEntrada mdC3 resC3.rondas 0 "B" 1 1) :=
  ⟨by decide,
    ⟨(c3_amended mdC3 (by decide) (by decide) (by decide)
        (by
          intro o f h q hq
          simp only [mdC3, mdA] at hq
          split_ifs at hq <;> simp_all <;> norm_num [← hq])
        resC3 extraer_mdC3 0 rdC3 resC3_ronda0 "B" 1 1).2.2.1,
      (c3_amended mdC3 (by decide) (by decide) (by decide)
        (by
          intro o f h q hq
          simp only [mdC3, mdA] at hq
          split_ifs at hq <;> simp_all <;> norm_num [← hq])
        resC3 extraer_mdC3 0 rdC3 resC3_ronda0 "B" 1 1).2.2.2⟩⟩

/-- C4: the loop always halts within `#(valid offers) + 1` iterations
(it in fact always stops by iteration 2), and — the index lists being
duplicate-free, as `construir_modelo` sorts them unique — the stop is
one of the two conditions the claim names: the total remaining demand
fell below 1e-6, or the last executed round assigned a total below
1e-6.  The no-change break of line 341 never fires. -/
theorem c4_termination (md : ModelData) (hv : ofertasValidas md ≠ [])
    (hfnd : md.fechas.Nodup) (hhnd : md.horas.Nodup) :
    ∃ st', iterar md ((ofertasValidas md).length + 1) (estadoInicial md) = some st' ∧
      (totalRestante md st'.restante < Eps ∨
        ∃ rd, st'.rondas.getLast? = some rd ∧ rd.total < Eps) := by
  obtain ⟨st', h2, hstop⟩ := iterar_two_spec md (estadoInicial md) rfl
  have hlen : 0 < (ofertasValidas md).length := List.length_pos.mpr hv
  exact ⟨st', iterar_of_two md _ _ h2 _ (by omega),
    hstop (List.Nodup.product hfnd hhnd)⟩

/-- C4 witness: termination of the run on `mdA` within
`#(valid offers) + 1 = 3` iterations. -/
theorem c4_witness :
    ofertasValidas mdA ≠ [] ∧
      ∃ st', iterar mdA ((ofertasValidas mdA).length + 1) (estadoInicial mdA) =
          some st' ∧
        (totalRestante mdA st'.restante < Eps ∨
          ∃ rd, st'.rondas.getLast? = some rd ∧ rd.total < Eps) :=
  ⟨by decide, c4_termination mdA (by decide) (by decide) (by decide)⟩

/-- C5: for every offer and slot, the total quantity assigned to that
offer at that slot, summed over all rounds, never exceeds the
originally quoted capacity (exactly, hence in particular to within
1e-6). -/
theorem c5_capacity (md : ModelData) (hond : md.ofertas.Nodup)
    (hfnd : md.fechas.Nodup) (hhnd : md.horas.Nodup)
    (hq : ∀ o f h q, md.quote o f h = some q → 0 ≤ q.cantidad)
    (res : Resultados) (hres : extraer_resultados md = some res)
    (o : String) (f h : Nat) :
    asignadoOferta res.asigs o f h ≤ CO md o f h := by
  obtain ⟨st', h2, _, hasg, _⟩ := extraer_some_elim hres
  have hP0 : ∀ o' f' h',
      asignadoOferta (estadoInicial md).asigs o' f' h' +
        capacidadDisponible md (estadoInicial md).it
          (estadoInicial md).prevNoUsada o' f' h' ≤ CO md o' f' h' ∧
      0 ≤ capacidadDisponible md (estadoInicial md).it
        (estadoInicial md).prevNoUsada o' f' h' := by
    intro o' f' h'
    constructor
    · show asignadoOferta [] o' f' h' +
        capacidadDisponible md 1 (fun _ _ _ => 0) o' f' h' ≤ CO md o' f' h'
      rw [asignadoOferta_nil, capacidadDisponible, if_pos rfl]
      linarith [le_refl (CO md o' f' h')]
    · show 0 ≤ capacidadDisponible md 1 (fun _ _ _ => 0) o' f' h'
      rw [capacidadDisponible, if_pos rfl]
      exact CO_nonneg md hq o' f' h'
  have hcap := iterar_cap md (List.Nodup.product hfnd hhnd)
    (List.Nodup.filter _ hond) 2 (estadoInicial md) st' h2 ⟨le_refl 1, hP0⟩
  rw [hasg]
  have hle := (hcap.2 o f h).1
  have hnn := (hcap.2 o f h).2
  linarith

/-- C5 witness: the capacity bound for offer "A" at slot (1, 1) of the
run on `mdA`. -/
theorem c5_witness :
    mdA.ofertas.Nodup ∧ asignadoOferta resA.asigs "A" 1 1 ≤ CO mdA "A" 1 1 :=
  ⟨by decide,
    c5_capacity mdA (by decide) (by decide) (by decide)
      (by
        intro o f h q hq
        simp only [mdA] at hq
        split_ifs at hq <;> simp_all <;> norm_num [← hq])
      resA extraer_mdA "A" 1 1⟩

/-- C6: running the allocator twice on identical input yields
identical tables: the result is a pure function of the index lists, the
demand on the model's slots and the quotes on the model's index sets,
so two models agreeing there produce equal allocation and
`DEMANDA_FALTANTE` tables. -/
theorem c6_determinism (md₁ md₂ : ModelData)
    (ho : md₁.ofertas = md₂.ofertas) (hf : md₁.fechas = md₂.fechas)
    (hh : md₁.horas = md₂.horas)
    (hq : ∀ o ∈ md₁.ofertas, ∀ f ∈ md₁.fechas, ∀ h ∈ md₁.horas,
      md₁.quote o f h = md₂.quote o f h)
    (hd : ∀ f ∈ md₁.fechas, ∀ h ∈ md₁.horas, md₁.D f h = md₂.D f h) :
    extraer_resultados md₁ = extraer_resultados md₂ :=
  extraer_congr ⟨ho, hf, hh, hq, hd⟩

/-- C6 witness: `mdC6a` and `mdC6b` agree on the engine-relevant data
(and nowhere else) and produce identical results. -/
theorem c6_witness :
    mdC6a.ofertas = mdC6b.ofertas ∧
      extraer_resultados mdC6a = extraer_resultados mdC6b :=
  ⟨rfl,
    c6_determinism mdC6a mdC6b rfl rfl rfl
      (by intro o ho f hf h hh; fin_cases ho; fin_cases hf; fin_cases hh; rfl)
      (by intro f hf h hh; fin_cases hf; fin_cases hh; rfl)⟩

/-- C7 counterexample: `model.M` is the fixed constant 1e10
(modelo.py line 116), not chosen per snapshot: on `mdC7` (max price
10^9, total demand 10) it is strictly below
max(price) × total_demand × 10 = 10^11. -/
theorem c7_counterexample : bigM < maxPrecio mdC7 * demandaTotal mdC7 * 10 := by
  norm_num [bigM, maxPrecio, listaPrecios, demandaTotal, slots, mdC7, List.product,
    List.filterMap, max_def, decide_eq_true_eq]

/-- C7 (amended): the deficit penalty is the fixed constant
`BIG_M = 1e10`; the claimed inequality
`BIG_M ≥ max(price) × total_demand × 10` therefore holds exactly for
the snapshots whose max(price) × total_demand is at most 10^9, not for
every input. -/
theorem c7_amended (md : ModelData)
    (hb : maxPrecio md * demandaTotal md ≤ 1000000000) :
    maxPrecio md * demandaTotal md * 10 ≤ bigM := by
  show maxPrecio md * demandaTotal md * 10 ≤ 10000000000
  linarith

/-- C7 witness: `mdA` (max price 12, total demand 100) satisfies the
bound. -/
theorem c7_witness :
    maxPrecio mdA * demandaTotal mdA ≤ 1000000000 ∧
      maxPrecio mdA * demandaTotal mdA * 10 ≤ bigM :=
  ⟨by norm_num [maxPrecio, listaPrecios, demandaTotal, slots, mdA, List.product,
      List.filterMap, max_def, decide_eq_true_eq, str_AB, str_BA],
    c7_amended mdA
      (by norm_num [maxPrecio, listaPrecios, demandaTotal, slots, mdA, List.product,
        List.filterMap, max_def, decide_eq_true_eq, str_AB, str_BA])⟩

/-- C8 counterexample: with positive demand but no valid offer,
`extraer_resultados` returns the empty dict `{}` (modelo.py lines
298-300) — no `DEMANDA_FALTANTE` table is produced. -/
theorem c8_counterexample : extraer_resultados mdC8 = none ∧ mdC8.D 1 1 = 10 :=
  ⟨rfl, rfl⟩

/-- C8 (amended): whenever at least one offer has a valid combination,
the run does produce results — and hence the `DEMANDA_FALTANTE` table;
with no valid offer the function returns the empty dict without one. -/
theorem c8_amended (md : ModelData) (hv : ofertasValidas md ≠ []) :
    (extraer_resultados md).isSome := by
  obtain ⟨st', _, heq⟩ := extraer_spec md hv
  rw [heq]
  rfl

/-- C8 witness: the run on `mdA` produces results. -/
theorem c8_witness : ofertasValidas mdA ≠ [] ∧ (extraer_resultados mdA).isSome :=
  ⟨by decide, c8_amended mdA (by decide)⟩

/-- C9: the coverage percentage is assigned / demand × 100 with the
zero-demand guard (evaluacion.py line 124), and the quantity-weighted
average price has the zero-energy guard (modelo.py lines 605-607):
both are 0 in the guarded case and otherwise are genuine quotients of
a nonzero denominator (multiplying back recovers the numerator), so
neither ever divides by zero. -/
theorem c9_division_guards (t d c e : ℚ) :
    (d = 0 → cobertura t d = 0) ∧
      (0 < d → cobertura t d * d = t * 100) ∧
      (e = 0 → promedioPonderado c e = 0) ∧
      (0 < e → promedioPonderado c e * e = c) := by
  refine ⟨?_, ?_, ?_, ?_⟩
  · intro hd
    rw [cobertura, if_neg (by rw [hd]; exact lt_irrefl 0)]
  · intro hd
    rw [cobertura, if_pos hd]
    field_simp
  · intro he
    rw [promedioPonderado, if_neg (by rw [he]; exact lt_irrefl 0)]
  · intro he
    rw [promedioPonderado, if_pos he]
    field_simp

/-- C9 witness: the guards and the quotient identities at concrete
values. -/
theorem c9_witness :
    cobertura 50 0 = 0 ∧ cobertura 50 10 * 10 = 50 * 100 ∧
      promedioPonderado 21 0 = 0 ∧ promedioPonderado 21 3 * 3 = 21 :=
  ⟨(c9_division_guards 50 0 21 3).1 rfl,
    (c9_division_guards 50 10 21 3).2.1 (by norm_num),
    (c9_division_guards 50 10 21 0).2.2.1 rfl,
    (c9_division_guards 50 10 21 3).2.2.2 (by norm_num)⟩

/-- C10: the tables returned by `extraer_resultados` depend only on
the model's parameters (`D`, `CO`, `PO` — bundled as `quote` — and the
index lists): the solver-determined values of the decision variables
`EA`, `Y` and `ENA` are never read, so two solved models with equal
parameters but arbitrary variable values produce identical results. -/
theorem c10_solver_values_ignored (md : ModelData)
    (ea ea' : String → Nat → Nat → ℚ) (y y' : String → Nat → Nat → Bool)
    (ena ena' : Nat → Nat → ℚ) :
    extraer_resultados { md with EA := ea, Y := y, ENA := ena } =
      extraer_resultados { md with EA := ea', Y := y', ENA := ena' } :=
  extraer_congr ⟨rfl, rfl, rfl, fun o _ f _ h _ => rfl, fun f _ h _ => rfl⟩

end AsignacionPyomo
